import Mathlib

/-!
# Object status bookkeeping of the applier (`pkg/applier/status.go`)

A shallow embedding of `ObjectStatus`, `ObjectStatusMap`, `ObjectStatusMap.Filter`,
`writeStatus` and `ObjectStatusMap.Log`, followed by the properties proved about them.

Conventions of the embedding

* The three status dimensions are Go string types of the `cli-utils` library
  (`actuation.ActuationStrategy`, `actuation.ActuationStatus`, `actuation.ReconcileStatus`);
  they are embedded as `String`, so a field may hold any string, the empty one included.
* `core.ID` is a type parameter `ID`; its `String()` method is the `ToString ID` instance.
* A Go map `map[core.ID]*ObjectStatus` is a list of `(key, pointer)` entries without
  duplicate keys. The order of the list is the order in which a `range` loop visits the
  entries; every statement quantifies over all maps, hence over all visiting orders.
  A `nil` pointer is `none`. A nil map and an empty map range over nothing and are both
  the map without entries.
* A `strings.Builder` is the `String` written so far; a logger is the record of the
  messages handed to `Infof`, already formatted.
-/

namespace Applier

/-! ## Data model -/

/-- Go type `actuation.ActuationStrategy` (a string type). -/
abbrev ActuationStrategy := String

/-- Go type `actuation.ActuationStatus` (a string type). -/
abbrev ActuationStatus := String

/-- Go type `actuation.ReconcileStatus` (a string type). -/
abbrev ReconcileStatus := String

/-- Constant `actuation.ActuationStrategyApply`. -/
def ActuationStrategyApply : ActuationStrategy := "Apply"

/-- Constant `actuation.ActuationStrategyDelete`. -/
def ActuationStrategyDelete : ActuationStrategy := "Delete"

/-- Constant `actuation.ActuationPending`. -/
def ActuationPending : ActuationStatus := "Pending"

/-- Constant `actuation.ActuationSucceeded`. -/
def ActuationSucceeded : ActuationStatus := "Succeeded"

/-- Constant `actuation.ActuationSkipped`. -/
def ActuationSkipped : ActuationStatus := "Skipped"

/-- Constant `actuation.ActuationFailed`. -/
def ActuationFailed : ActuationStatus := "Failed"

/-- Constant `actuation.ReconcilePending`. -/
def ReconcilePending : ReconcileStatus := "Pending"

/-- Constant `actuation.ReconcileSucceeded`. -/
def ReconcileSucceeded : ReconcileStatus := "Succeeded"

/-- Constant `actuation.ReconcileSkipped`. -/
def ReconcileSkipped : ReconcileStatus := "Skipped"

/-- Constant `actuation.ReconcileTimeout`. -/
def ReconcileTimeout : ReconcileStatus := "Timeout"

/-- Constant `actuation.ReconcileFailed`. -/
def ReconcileFailed : ReconcileStatus := "Failed"

/-- Go struct `ObjectStatus`: the status triple tracked per object. -/
structure ObjectStatus where
  Strategy : ActuationStrategy
  Actuation : ActuationStatus
  Reconcile : ReconcileStatus
deriving DecidableEq, Repr

/-- Go type `ObjectStatusMap = map[core.ID]*ObjectStatus`: the entries in visiting order,
no key twice. -/
structure ObjectStatusMap (ID : Type) where
  entries : List (ID × Option ObjectStatus)
  nodupKeys : (entries.map Prod.fst).Nodup

namespace ObjectStatusMap

variable {ID : Type}

/-- The map without entries (`ObjectStatusMap{}`, and also a nil map). -/
def empty : ObjectStatusMap ID := ⟨[], List.nodup_nil⟩

/-- The keys of the map, in visiting order. -/
def keys (m : ObjectStatusMap ID) : List ID := m.entries.map Prod.fst

/-- Go map lookup `v, ok := m[id]`: `none` when `id` is not a key, `some v` when it is. -/
def get [DecidableEq ID] (m : ObjectStatusMap ID) (id : ID) : Option (Option ObjectStatus) :=
  (m.entries.find? (fun e => decide (e.1 = id))).map Prod.snd

/-- The entries after the Go map assignment `m[id] = r`: the value of an existing key is
replaced in place, a new key gets a new entry. -/
def setEntries [DecidableEq ID] (es : List (ID × Option ObjectStatus)) (id : ID)
    (r : Option ObjectStatus) : List (ID × Option ObjectStatus) :=
  if id ∈ es.map Prod.fst then es.map (fun e => if e.1 = id then (e.1, r) else e)
  else es ++ [(id, r)]

/-- Go map assignment `m[id] = r`. -/
def set [DecidableEq ID] (m : ObjectStatusMap ID) (id : ID) (r : Option ObjectStatus) :
    ObjectStatusMap ID :=
  ⟨setEntries m.entries id r, by
    have h := m.nodupKeys
    unfold setEntries
    split
    · have hk : (m.entries.map (fun e => if e.1 = id then (e.1, r) else e)).map Prod.fst
          = m.entries.map Prod.fst := by
        rw [List.map_map]
        apply List.map_congr_left
        intro e _
        by_cases he : e.1 = id <;> simp [he]
      rw [hk]
      exact h
    · rename_i hid
      rw [List.map_append]
      apply List.Nodup.append h (by simp)
      intro a ha hb
      simp at hb
      subst hb
      exact hid ha⟩

/-- Method `ObjectStatusMap.Filter`: the loop over the map, appending each identifier
that passes the three checks. -/
def Filter (m : ObjectStatusMap ID) (strategy : ActuationStrategy)
    (actuation : ActuationStatus) (reconcile : ReconcileStatus) : List ID :=
  m.entries.foldl
    (fun ids e =>
      match e.2 with
      | none => ids
      | some status =>
        if strategy ≠ "" ∧ status.Strategy ≠ strategy then ids
        else if actuation ≠ "" ∧ status.Actuation ≠ actuation then ids
        else if reconcile ≠ "" ∧ status.Reconcile ≠ reconcile then ids
        else ids ++ [e.1])
    []

end ObjectStatusMap

/-! ## Report formatting -/

/-- Variable `actuationStatuses`: the actuation statuses in logging order, without
`ActuationPending`. -/
def actuationStatuses : List ActuationStatus :=
  [ActuationSkipped, ActuationSucceeded, ActuationFailed]

/-- Variable `reconcileStatuses`: the reconcile statuses in logging order, without
`ReconcilePending`. -/
def reconcileStatuses : List ReconcileStatus :=
  [ReconcileSkipped, ReconcileSucceeded, ReconcileFailed, ReconcileTimeout]

/-- Modelled from the spec: the constant `commaSpaceDelimiter` is declared outside
`status.go`; the spec has the identifier list "comma-separated", and the name has comma and
space. -/
def commaSpaceDelimiter : String := ", "

/-- Modelled from the spec: the constant `commaEscapedNewlineDelimiter` is declared outside
`status.go`; the spec has the segments joined by "comma + literal-escaped newline", that is
a comma, a backslash and the letter n. -/
def commaEscapedNewlineDelimiter : String := ",\\n"

/-- Modelled from the spec: the helper `joinIDs` is declared outside `status.go`. The spec
has the log output "deterministic and stable across runs even though the underlying map
has no intrinsic order", has the callers of `Filter` that need a stable order "sort
deterministically", and has a "comma-separated list of identifier names"; `Log` and
`writeStatus` do not sort, so the names are sorted here, by the order of their characters,
and joined by the delimiter. -/
def joinIDs {ID : Type} [ToString ID] (delimiter : String) (ids : List ID) : String :=
  delimiter.intercalate ((ids.map toString).insertionSort (fun a b => a.data ≤ b.data))

/-- Function `writeStatus`: appends one segment to the builder. The error branch is
unreachable, `strings.Builder` never fails to write. -/
def writeStatus {ID : Type} [ToString ID] (b : String) (status : String) (ids : List ID) :
    String :=
  if ids.length = 0 then
    b ++ (status ++ " (" ++ toString ids.length ++ ")")
  else
    b ++ (status ++ " (" ++ toString ids.length ++ "): ["
      ++ joinIDs commaSpaceDelimiter ids ++ "]")

/-- One `for i, status := range statuses` loop of `Log`, started with `count = 0` and an
empty builder; `query status` is the `m.Filter` call of the loop body. The result is the
final `count` and `b.String()`. -/
def reportLoop {ID : Type} [ToString ID] (query : String → List ID) (statuses : List String) :
    Nat × String :=
  statuses.enum.foldl
    (fun st p =>
      let b := if p.1 > 0 then st.2 ++ commaEscapedNewlineDelimiter else st.2
      let ids := query p.2
      (st.1 + ids.length, writeStatus b p.2 ids))
    (0, "")

/-- The message of one `if count == 0 ... else ...` block of `Log`:
`Sprintf("<label> (Total: %d)", count)` or
`Sprintf("<label> (Total: %d):\\n%s", count, b.String())`. -/
def formatTotal (label : String) (count : Nat) (b : String) : String :=
  if count = 0 then
    label ++ " (Total: " ++ toString count ++ ")"
  else
    label ++ " (Total: " ++ toString count ++ "):\\n" ++ b

/-- Go interface `infofLogger`, as the record of what it was asked to log: `enabled` is
the answer of `Enabled()`, `infos` the formatted messages passed to `Infof`, oldest
first. -/
structure infofLogger where
  enabled : Bool
  infos : List String
deriving DecidableEq, Repr

/-- Method `Enabled` of the logger. -/
def infofLogger.Enabled (logger : infofLogger) : Bool := logger.enabled

/-- Method `Infof` of the logger, applied to the formatted message. -/
def infofLogger.Infof (logger : infofLogger) (msg : String) : infofLogger :=
  ⟨logger.enabled, logger.infos ++ [msg]⟩

/-- The first and third loop of `Log`: the loop over `actuationStatuses` with the call
`m.Filter(strategy, status, "")`; the result is the final `count` and `b.String()`. -/
def ObjectStatusMap.actuationReport {ID : Type} [ToString ID] (m : ObjectStatusMap ID)
    (strategy : ActuationStrategy) : Nat × String :=
  reportLoop (fun status => m.Filter strategy status "") actuationStatuses

/-- The second and fourth loop of `Log`: the loop over `reconcileStatuses` with the call
`m.Filter(strategy, "", status)`; the result is the final `count` and `b.String()`. -/
def ObjectStatusMap.reconcileReport {ID : Type} [ToString ID] (m : ObjectStatusMap ID)
    (strategy : ActuationStrategy) : Nat × String :=
  reportLoop (fun status => m.Filter strategy "" status) reconcileStatuses

/-- Method `ObjectStatusMap.Log`: nothing when the logger is disabled, else the four
blocks in source order, each a loop followed by one `Infof`. -/
def ObjectStatusMap.Log {ID : Type} [ToString ID] (m : ObjectStatusMap ID)
    (logger : infofLogger) : infofLogger :=
  if !logger.Enabled then logger
  else
    let r := m.actuationReport ActuationStrategyApply
    let logger := logger.Infof (formatTotal "Apply Actuations" r.1 r.2)
    let r := m.reconcileReport ActuationStrategyApply
    let logger := logger.Infof (formatTotal "Apply Reconciles" r.1 r.2)
    let r := m.actuationReport ActuationStrategyDelete
    let logger := logger.Infof (formatTotal "Delete Actuations" r.1 r.2)
    let r := m.reconcileReport ActuationStrategyDelete
    logger.Infof (formatTotal "Delete Reconciles" r.1 r.2)

/-! ## Vocabulary of the statements -/

/-- The number of keys of the map whose record is non-nil and satisfies `p`. -/
def ObjectStatusMap.countRecords {ID : Type} (m : ObjectStatusMap ID)
    (p : ObjectStatus → Bool) : Nat :=
  m.entries.countP (fun e => match e.2 with
    | none => false
    | some status => p status)

/-- What one visit of the loop of `Filter` contributes: the key, when the record is
non-nil and every constraint is empty or equal to the field. -/
def selected {ID : Type} (strategy : ActuationStrategy) (actuation : ActuationStatus)
    (reconcile : ReconcileStatus) (e : ID × Option ObjectStatus) : Option ID :=
  match e.2 with
  | none => none
  | some status =>
    if (strategy = "" ∨ status.Strategy = strategy)
        ∧ (actuation = "" ∨ status.Actuation = actuation)
        ∧ (reconcile = "" ∨ status.Reconcile = reconcile) then some e.1
    else none

/-- The scenario map of the spec: `id1` applied and reconciled, `id2` failed to apply,
`id3` deleted and reconciled. -/
def scenarioMap : ObjectStatusMap String :=
  ((ObjectStatusMap.empty.set "id1"
      (some ⟨ActuationStrategyApply, ActuationSucceeded, ReconcileSucceeded⟩)).set "id2"
      (some ⟨ActuationStrategyApply, ActuationFailed, ReconcilePending⟩)).set "id3"
      (some ⟨ActuationStrategyDelete, ActuationSucceeded, ReconcileSucceeded⟩)

/-- The scenario map with one more key, `id4`, that holds a nil record. -/
def reservedMap : ObjectStatusMap String := scenarioMap.set "id4" none

/-- A map with one record whose statuses are still the zero value of their types, as
after `m[id] = &ObjectStatus{Strategy: actuation.ActuationStrategyApply}`. -/
def unsetMap : ObjectStatusMap String :=
  ObjectStatusMap.empty.set "id1" (some ⟨ActuationStrategyApply, "", ""⟩)

/-- A map whose only record has strategy Delete. -/
def deleteOnlyMap : ObjectStatusMap String :=
  ObjectStatusMap.empty.set "id3"
    (some ⟨ActuationStrategyDelete, ActuationSucceeded, ReconcileSucceeded⟩)

/-- A map whose only record has strategy Apply. -/
def applyOnlyMap : ObjectStatusMap String :=
  ObjectStatusMap.empty.set "id1"
    (some ⟨ActuationStrategyApply, ActuationSucceeded, ReconcileTimeout⟩)

/-- Go builtin `delete(m, id)`: the entry of the key is removed, the other entries keep
their place. -/
def ObjectStatusMap.delete {ID : Type} [DecidableEq ID] (m : ObjectStatusMap ID) (id : ID) :
    ObjectStatusMap ID :=
  ⟨m.entries.filter (fun e => decide (¬ e.1 = id)),
    List.Nodup.sublist ((List.filter_sublist m.entries).map Prod.fst) m.nodupKeys⟩

/-- The segment of one bucket, in the words of the spec: the value and the count in
parentheses, followed by the bracketed names of the identifiers, in sorted order and
joined by comma and space, exactly when the count is not zero. -/
def segment {ID : Type} [ToString ID] (status : String) (ids : List ID) : String :=
  status ++ " (" ++ toString ids.length ++ ")"
    ++ (if ids.length = 0 then ""
      else ": [" ++ ", ".intercalate
        ((ids.map toString).insertionSort (fun a b => a.data ≤ b.data)) ++ "]")

/-- Two maps with the same two records, visited in opposite orders. -/
def orderedMap : ObjectStatusMap String :=
  (ObjectStatusMap.empty.set "id1"
      (some ⟨ActuationStrategyApply, ActuationSucceeded, ReconcileSucceeded⟩)).set "id2"
      (some ⟨ActuationStrategyApply, ActuationSucceeded, ReconcileSucceeded⟩)

/-- The records of `orderedMap`, visited in the opposite order. -/
def reversedMap : ObjectStatusMap String :=
  (ObjectStatusMap.empty.set "id2"
      (some ⟨ActuationStrategyApply, ActuationSucceeded, ReconcileSucceeded⟩)).set "id1"
      (some ⟨ActuationStrategyApply, ActuationSucceeded, ReconcileSucceeded⟩)

/-- The message of one report, in the words of the spec: the label, the total (the sum of
the bucket counts) in parentheses and, unless the total is zero, a colon, an escaped
newline and the segments of the buckets joined by comma and escaped newline. -/
def reportLine {ID : Type} [ToString ID] (label : String) (buckets : List (String × List ID)) :
    String :=
  label ++ " (Total: " ++ toString (buckets.map (fun b => b.2.length)).sum ++ ")"
    ++ (if (buckets.map (fun b => b.2.length)).sum = 0 then ""
      else ":\\n" ++ ",\\n".intercalate (buckets.map (fun b => segment b.1 b.2)))

/-! ## The calls made by `Log` -/

/-- One call made by `Log`: on the logger (`Enabled`, `Infof`), on the map (`Filter`) or
on the builder (`WriteString`, `writeStatus`, `Reset`). -/
inductive LogStep where
  | Enabled : LogStep
  | Filter (strategy : ActuationStrategy) (actuation : ActuationStatus)
      (reconcile : ReconcileStatus) : LogStep
  | WriteString (s : String) : LogStep
  | writeStatus (status : String) : LogStep
  | Reset : LogStep
  | Infof (msg : String) : LogStep
deriving DecidableEq, Repr

/-- The calls of one `for i, status := range statuses` loop of `Log`, in order: for every
status the delimiter write when `i > 0`, the `Filter` call and the `writeStatus` call. -/
def reportLoopSteps (call : String → LogStep) (statuses : List String) : List LogStep :=
  statuses.enum.flatMap (fun p =>
    (if p.1 > 0 then [LogStep.WriteString commaEscapedNewlineDelimiter] else [])
      ++ [call p.2, LogStep.writeStatus p.2])

/-- The calls of `ObjectStatusMap.Log`, in source order: `Enabled` first; when it answers
false nothing more, else the four blocks, each a loop and one `Infof`, with a `Reset` of
the builder between them. -/
def ObjectStatusMap.LogSteps {ID : Type} [ToString ID] (m : ObjectStatusMap ID)
    (logger : infofLogger) : List LogStep :=
  LogStep.Enabled ::
    (if !logger.Enabled then []
    else
      reportLoopSteps (fun status => LogStep.Filter ActuationStrategyApply status "")
          actuationStatuses
        ++ [LogStep.Infof (formatTotal "Apply Actuations"
              (m.actuationReport ActuationStrategyApply).1
              (m.actuationReport ActuationStrategyApply).2),
            LogStep.Reset]
        ++ reportLoopSteps (fun status => LogStep.Filter ActuationStrategyApply "" status)
          reconcileStatuses
        ++ [LogStep.Infof (formatTotal "Apply Reconciles"
              (m.reconcileReport ActuationStrategyApply).1
              (m.reconcileReport ActuationStrategyApply).2),
            LogStep.Reset]
        ++ reportLoopSteps (fun status => LogStep.Filter ActuationStrategyDelete status "")
          actuationStatuses
        ++ [LogStep.Infof (formatTotal "Delete Actuations"
              (m.actuationReport ActuationStrategyDelete).1
              (m.actuationReport ActuationStrategyDelete).2),
            LogStep.Reset]
        ++ reportLoopSteps (fun status => LogStep.Filter ActuationStrategyDelete "" status)
          reconcileStatuses
        ++ [LogStep.Infof (formatTotal "Delete Reconciles"
              (m.reconcileReport ActuationStrategyDelete).1
              (m.reconcileReport ActuationStrategyDelete).2)])

/-- The messages among the calls: the arguments of the `Infof` calls, in order. -/
def infofMessages (steps : List LogStep) : List String :=
  steps.filterMap (fun step => match step with
    | LogStep.Infof msg => some msg
    | _ => none)

end Applier

/-! # Decoding of generic resources (`pkg/syncer/decode/decode.go`)

The embedding of `genericResourceDecoder.DecodeResources`. The decoder and the converter
of the Kubernetes libraries are fields of the decoder, as in the source; an error return is
`Except.error`. The content of an unstructured object, a typed object, the raw bytes and
the errors of the libraries are type parameters `M`, `T`, `Raw` and `E`.
-/

namespace Decode

/-- Go type `schema.GroupVersionKind`. -/
structure GroupVersionKind where
  Group : String
  Version : String
  Kind : String
deriving DecidableEq, Repr

/-- Go type `unstructured.Unstructured`: the wrapper of the content of an object. -/
structure Unstructured (M : Type) where
  Object : M
deriving DecidableEq, Repr

/-- A `runtime.Object`, as the type assertion `o.(*unstructured.Unstructured)` tells them
apart: an unstructured object or an object of another type. -/
inductive RuntimeObject (M T : Type) where
  | unstructured (u : Unstructured M) : RuntimeObject M T
  | typed (t : T) : RuntimeObject M T
deriving DecidableEq, Repr

/-- Go type `v1.GenericObject`, declared outside `decode.go`, with the two fields of its
embedded `runtime.RawExtension` that `DecodeResources` reads; `Object` is `none` for
nil. -/
structure GenericObject (M T Raw : Type) where
  Raw : Raw
  Object : Option (RuntimeObject M T)
deriving DecidableEq, Repr

/-- Go type `v1.GenericVersionResources`, declared outside `decode.go`, with the fields
`DecodeResources` reads. -/
structure GenericVersionResources (M T Raw : Type) where
  Version : String
  Objects : List (GenericObject M T Raw)
deriving DecidableEq, Repr

/-- Go type `v1.GenericResources`, declared outside `decode.go`, with the fields
`DecodeResources` reads. -/
structure GenericResources (M T Raw : Type) where
  Group : String
  Kind : String
  Versions : List (GenericVersionResources M T Raw)
deriving DecidableEq, Repr

/-- Go struct `genericResourceDecoder`, as the library calls `DecodeResources` makes:
`decoder.Decode(raw, &gvk, u)`, `unstructuredConverter.ToUnstructured(o)` and what
`SetGroupVersionKind(gvk)` does to the content of an object. -/
structure genericResourceDecoder (M T Raw E : Type) where
  Decode : Raw → GroupVersionKind → Except E (RuntimeObject M T)
  ToUnstructured : T → Except E M
  SetGroupVersionKind : M → GroupVersionKind → M

/-- The two errors `DecodeResources` returns, each built by `fmt.Errorf`. -/
inductive DecodeError (E : Type) where
  | couldNotDecode (gvk : GroupVersionKind) (err : E) : DecodeError E
  | couldNotTreatAsUnstructured (gvk : GroupVersionKind) : DecodeError E
deriving DecidableEq, Repr

/-- Go type `map[schema.GroupVersionKind][]*unstructured.Unstructured`: the entries, in
the order in which the keys were first assigned. -/
abbrev ResourceMap (M : Type) := List (GroupVersionKind × List (Unstructured M))

/-- Go map lookup `us[gvk]`: the slice under the key, the nil slice when there is none. -/
def ResourceMap.get {M : Type} : ResourceMap M → GroupVersionKind → List (Unstructured M)
  | [], _ => []
  | e :: es, gvk => if e.1 = gvk then e.2 else ResourceMap.get es gvk

/-- Go map assignment `us[gvk] = v`: the value of an existing key is replaced, a new key
gets a new entry. -/
def ResourceMap.set {M : Type} :
    ResourceMap M → GroupVersionKind → List (Unstructured M) → ResourceMap M
  | [], gvk, v => [(gvk, v)]
  | e :: es, gvk, v => if e.1 = gvk then (e.1, v) :: es else e :: ResourceMap.set es gvk v

/-- The body of the innermost loop of `DecodeResources` up to the object `au`: the object
of the entry, decoded from the raw bytes when it is nil, and converted when it is not
unstructured. -/
def decodeObject {M T Raw E : Type} (d : genericResourceDecoder M T Raw E)
    (gvk : GroupVersionKind) (genericObject : GenericObject M T Raw) :
    Except (DecodeError E) (Unstructured M) := do
  let o ← match genericObject.Object with
    | some o => pure o
    | none =>
      match d.Decode genericObject.Raw gvk with
      | Except.ok o => pure o
      | Except.error err => throw (DecodeError.couldNotDecode gvk err)
  match o with
  | RuntimeObject.unstructured au => pure au
  | RuntimeObject.typed t =>
    match d.ToUnstructured t with
    | Except.error _ => throw (DecodeError.couldNotTreatAsUnstructured gvk)
    | Except.ok m => pure ⟨d.SetGroupVersionKind m gvk⟩

/-- Method `genericResourceDecoder.DecodeResources`: the three nested loops, each object
appended to the slice under its key, the first error returned at once. -/
def genericResourceDecoder.DecodeResources {M T Raw E : Type}
    (d : genericResourceDecoder M T Raw E) (genericResources : List (GenericResources M T Raw)) :
    Except (DecodeError E) (ResourceMap M) :=
  genericResources.foldlM
    (fun us gr =>
      gr.Versions.foldlM
        (fun us v =>
          v.Objects.foldlM
            (fun us genericObject =>
              let gvk : GroupVersionKind := ⟨gr.Group, v.Version, gr.Kind⟩
              match decodeObject d gvk genericObject with
              | Except.error err => Except.error err
              | Except.ok au => Except.ok (ResourceMap.set us gvk (ResourceMap.get us gvk ++ [au])))
            us)
        us)
    []

/-- The objects of the input, in input order, each with the key made of the group and
kind of its resource entry and the version of its version entry. -/
def inputObjects {M T Raw : Type} (genericResources : List (GenericResources M T Raw)) :
    List (GroupVersionKind × GenericObject M T Raw) :=
  genericResources.flatMap (fun gr =>
    gr.Versions.flatMap (fun v =>
      v.Objects.map (fun genericObject => (⟨gr.Group, v.Version, gr.Kind⟩, genericObject))))

/-- One pass of the innermost loop body of `DecodeResources` on an object and its key. -/
def decodeStep {M T Raw E : Type} (d : genericResourceDecoder M T Raw E) (us : ResourceMap M)
    (p : GroupVersionKind × GenericObject M T Raw) : Except (DecodeError E) (ResourceMap M) :=
  match decodeObject d p.1 p.2 with
  | Except.error err => Except.error err
  | Except.ok au => Except.ok (ResourceMap.set us p.1 (ResourceMap.get us p.1 ++ [au]))

/-- A decoder for examples: raw bytes decode to an unstructured object with the same
content, a typed object converts to its own content, and setting the kind appends it. -/
def sampleDecoder : genericResourceDecoder String String String String :=
  ⟨fun raw _ => Except.ok (RuntimeObject.unstructured ⟨raw⟩),
    fun t => Except.ok t,
    fun m gvk => m ++ "/" ++ gvk.Kind⟩

/-- An input for examples: two entries of kind Role, group rbac, version v1, around an
entry of kind Anvil with two versions; one object is raw, one is typed. -/
def sampleResources : List (GenericResources String String String) :=
  [⟨"rbac", "Role", [⟨"v1", [⟨"", some (RuntimeObject.unstructured ⟨"r1"⟩)⟩, ⟨"r2", none⟩]⟩]⟩,
    ⟨"acme", "Anvil", [⟨"v1", [⟨"", some (RuntimeObject.typed "a1")⟩]⟩,
      ⟨"v2", [⟨"", some (RuntimeObject.unstructured ⟨"a2"⟩)⟩]⟩]⟩,
    ⟨"rbac", "Role", [⟨"v1", [⟨"", some (RuntimeObject.unstructured ⟨"r3"⟩)⟩]⟩]⟩]

end Decode

namespace Applier

/-! ## Lemmas on the map and on `Filter` -/

theorem foldl_filter_step {ID : Type} (s a r : String) (es : List (ID × Option ObjectStatus))
    (acc : List ID) :
    es.foldl
      (fun ids e =>
        match e.2 with
        | none => ids
        | some status =>
          if s ≠ "" ∧ status.Strategy ≠ s then ids
          else if a ≠ "" ∧ status.Actuation ≠ a then ids
          else if r ≠ "" ∧ status.Reconcile ≠ r then ids
          else ids ++ [e.1])
      acc = acc ++ es.filterMap (selected s a r) := by
  induction es generalizing acc with
  | nil => simp
  | cons e es ih =>
    rw [List.foldl_cons, ih]
    obtain ⟨k, v⟩ := e
    cases v with
    | none => simp [selected]
    | some st =>
      simp only [List.filterMap_cons, selected]
      by_cases h1 : s = "" ∨ st.Strategy = s
      · have e1 : ¬ (s ≠ "" ∧ st.Strategy ≠ s) := by tauto
        by_cases h2 : a = "" ∨ st.Actuation = a
        · have e2 : ¬ (a ≠ "" ∧ st.Actuation ≠ a) := by tauto
          by_cases h3 : r = "" ∨ st.Reconcile = r
          · have e3 : ¬ (r ≠ "" ∧ st.Reconcile ≠ r) := by tauto
            rw [if_neg e1, if_neg e2, if_neg e3, if_pos ⟨h1, h2, h3⟩]
            simp
          · have e3 : r ≠ "" ∧ st.Reconcile ≠ r := by tauto
            rw [if_neg e1, if_neg e2, if_pos e3, if_neg (fun h => h3 h.2.2)]
        · have e2 : a ≠ "" ∧ st.Actuation ≠ a := by tauto
          rw [if_neg e1, if_pos e2, if_neg (fun h => h2 h.2.1)]
      · have e1 : s ≠ "" ∧ st.Strategy ≠ s := by tauto
        rw [if_pos e1, if_neg (fun h => h1 h.1)]

/-- The loop of `Filter` computes a `filterMap` over the entries. -/
theorem Filter_eq_filterMap {ID : Type} (m : ObjectStatusMap ID) (s a r : String) :
    m.Filter s a r = m.entries.filterMap (selected s a r) := by
  unfold ObjectStatusMap.Filter
  rw [foldl_filter_step]
  simp

/-- With no key twice, lookup finds exactly the entries of the list. -/
theorem get_eq_some_iff {ID : Type} [DecidableEq ID] (m : ObjectStatusMap ID) (id : ID)
    (v : Option ObjectStatus) : m.get id = some v ↔ (id, v) ∈ m.entries := by
  obtain ⟨es, nd⟩ := m
  unfold ObjectStatusMap.get
  simp only
  induction es with
  | nil => simp
  | cons e es ih =>
    obtain ⟨k, w⟩ := e
    simp only [List.map_cons, List.nodup_cons, List.mem_map, not_exists, not_and] at nd
    by_cases hk : k = id
    · subst hk
      simp only [List.find?_cons, decide_True, Option.map_some', Option.some.injEq,
        List.mem_cons, Prod.mk.injEq, true_and]
      constructor
      · intro h
        exact Or.inl h.symm
      · rintro (h | h)
        · exact h.symm
        · exact absurd rfl (nd.1 (k, v) h)
    · have hk2 : ¬ id = k := fun h => hk h.symm
      simp only [List.find?_cons, hk, decide_False, List.mem_cons, Prod.mk.injEq, hk2,
        false_and, false_or]
      exact ih nd.2

/-- Lookup misses exactly the identifiers that are no key. -/
theorem get_eq_none_iff {ID : Type} [DecidableEq ID] (m : ObjectStatusMap ID) (id : ID) :
    m.get id = none ↔ id ∉ m.keys := by
  unfold ObjectStatusMap.get ObjectStatusMap.keys
  simp only [Option.map_eq_none', List.find?_eq_none, decide_eq_true_eq, List.mem_map,
    not_exists, not_and]

/-- Membership in a `Filter` result, on the entries. -/
theorem mem_Filter_entries {ID : Type} (m : ObjectStatusMap ID) (id : ID) (s a r : String) :
    id ∈ m.Filter s a r ↔ ∃ st, (id, some st) ∈ m.entries
      ∧ (s = "" ∨ st.Strategy = s) ∧ (a = "" ∨ st.Actuation = a)
      ∧ (r = "" ∨ st.Reconcile = r) := by
  rw [Filter_eq_filterMap, List.mem_filterMap]
  constructor
  · rintro ⟨⟨k, v⟩, hmem, hsel⟩
    cases v with
    | none => simp [selected] at hsel
    | some st =>
      simp only [selected] at hsel
      split at hsel
      · rename_i hc
        simp only [Option.some.injEq] at hsel
        subst hsel
        exact ⟨st, hmem, hc⟩
      · simp at hsel
  · rintro ⟨st, hmem, hc⟩
    exact ⟨(id, some st), hmem, by simp [selected, hc]⟩

/-- Membership in a `Filter` result, through lookup. -/
theorem mem_Filter_get {ID : Type} [DecidableEq ID] (m : ObjectStatusMap ID) (id : ID)
    (s a r : String) :
    id ∈ m.Filter s a r ↔ ∃ st, m.get id = some (some st)
      ∧ (s = "" ∨ st.Strategy = s) ∧ (a = "" ∨ st.Actuation = a)
      ∧ (r = "" ∨ st.Reconcile = r) := by
  rw [mem_Filter_entries]
  simp only [get_eq_some_iff]

/-- A key has one value: two entries under one key are the same entry. -/
theorem entries_value_unique {ID : Type} (m : ObjectStatusMap ID) (id : ID)
    (v w : Option ObjectStatus) (hv : (id, v) ∈ m.entries) (hw : (id, w) ∈ m.entries) :
    v = w := by
  classical
  have h1 := (get_eq_some_iff m id v).2 hv
  have h2 := (get_eq_some_iff m id w).2 hw
  rw [h1] at h2
  exact Option.some.inj h2

/-- The identifiers `Filter` returns are a sublist of the keys. -/
theorem Filter_sublist_keys {ID : Type} (m : ObjectStatusMap ID) (s a r : String) :
    (m.Filter s a r).Sublist m.keys := by
  rw [Filter_eq_filterMap]
  unfold ObjectStatusMap.keys
  generalize m.entries = es
  induction es with
  | nil => simp
  | cons e es ih =>
    obtain ⟨k, v⟩ := e
    cases v with
    | none =>
      simp only [List.filterMap_cons, selected, List.map_cons]
      exact List.Sublist.cons _ ih
    | some st =>
      by_cases h : (s = "" ∨ st.Strategy = s) ∧ (a = "" ∨ st.Actuation = a)
          ∧ (r = "" ∨ st.Reconcile = r)
      · simp only [List.filterMap_cons, selected, List.map_cons, if_pos h]
        exact List.Sublist.cons₂ _ ih
      · simp only [List.filterMap_cons, selected, List.map_cons, if_neg h]
        exact List.Sublist.cons _ ih

/-- No identifier occurs twice in a `Filter` result. -/
theorem Filter_nodup {ID : Type} (m : ObjectStatusMap ID) (s a r : String) :
    (m.Filter s a r).Nodup :=
  List.Nodup.sublist (Filter_sublist_keys m s a r) m.nodupKeys

/-- The length of a `Filter` result is the number of records that satisfy the
constraints. -/
theorem Filter_length {ID : Type} (m : ObjectStatusMap ID) (s a r : String) :
    (m.Filter s a r).length = m.countRecords (fun st =>
      decide ((s = "" ∨ st.Strategy = s) ∧ (a = "" ∨ st.Actuation = a)
        ∧ (r = "" ∨ st.Reconcile = r))) := by
  rw [Filter_eq_filterMap, List.length_filterMap_eq_countP]
  unfold ObjectStatusMap.countRecords
  apply List.countP_congr
  intro e _
  obtain ⟨k, v⟩ := e
  cases v with
  | none => simp [selected]
  | some st =>
    by_cases h : (s = "" ∨ st.Strategy = s) ∧ (a = "" ∨ st.Actuation = a)
        ∧ (r = "" ∨ st.Reconcile = r)
    · simp only [selected, if_pos h, Option.isSome_some, decide_eq_true h]
    · simp only [selected, if_neg h, Option.isSome_none, decide_eq_false h]

/-- Counting is additive over two predicates that exclude each other on the records of
the map. -/
theorem countRecords_add {ID : Type} (m : ObjectStatusMap ID) (p q u : ObjectStatus → Bool)
    (h : ∀ id st, (id, some st) ∈ m.entries →
      (u st = true ↔ (p st = true ∨ q st = true)) ∧ ¬ (p st = true ∧ q st = true)) :
    m.countRecords u = m.countRecords p + m.countRecords q := by
  unfold ObjectStatusMap.countRecords
  obtain ⟨es, nd⟩ := m
  simp only at h ⊢
  clear nd
  induction es with
  | nil => simp
  | cons e es ih =>
    obtain ⟨k, v⟩ := e
    have ih2 := ih (fun id st hm => h id st (List.mem_cons_of_mem _ hm))
    rw [List.countP_cons, List.countP_cons, List.countP_cons, ih2]
    cases v with
    | none => simp
    | some st =>
      have hst := h k st (List.mem_cons_self _ _)
      simp only
      have key : (if u st = true then 1 else 0 : Nat)
          = (if p st = true then 1 else 0) + (if q st = true then 1 else 0) := by
        split_ifs with hu hp hq <;> first | rfl | (exfalso; tauto)
      omega

/-- The count of an actuation loop is the sum of the lengths of its three `Filter`
results. -/
theorem actuationReport_count {ID : Type} [ToString ID] (m : ObjectStatusMap ID) (S : String) :
    (m.actuationReport S).1 = (m.Filter S ActuationSkipped "").length
      + (m.Filter S ActuationSucceeded "").length + (m.Filter S ActuationFailed "").length := by
  simp [ObjectStatusMap.actuationReport, reportLoop, actuationStatuses, List.enum,
    List.enumFrom]

/-- The count of a reconcile loop is the sum of the lengths of its four `Filter`
results. -/
theorem reconcileReport_count {ID : Type} [ToString ID] (m : ObjectStatusMap ID) (S : String) :
    (m.reconcileReport S).1 = (m.Filter S "" ReconcileSkipped).length
      + (m.Filter S "" ReconcileSucceeded).length + (m.Filter S "" ReconcileFailed).length
      + (m.Filter S "" ReconcileTimeout).length := by
  simp [ObjectStatusMap.reconcileReport, reportLoop, reconcileStatuses, List.enum,
    List.enumFrom]

/-- What an enabled logger holds after `Log`: the four messages, in source order. -/
theorem Log_enabled_infos {ID : Type} [ToString ID] (m : ObjectStatusMap ID)
    (infos : List String) :
    (m.Log ⟨true, infos⟩).infos = infos ++
      [formatTotal "Apply Actuations" (m.actuationReport ActuationStrategyApply).1
          (m.actuationReport ActuationStrategyApply).2,
        formatTotal "Apply Reconciles" (m.reconcileReport ActuationStrategyApply).1
          (m.reconcileReport ActuationStrategyApply).2,
        formatTotal "Delete Actuations" (m.actuationReport ActuationStrategyDelete).1
          (m.actuationReport ActuationStrategyDelete).2,
        formatTotal "Delete Reconciles" (m.reconcileReport ActuationStrategyDelete).1
          (m.reconcileReport ActuationStrategyDelete).2] := by
  simp [ObjectStatusMap.Log, infofLogger.Enabled, infofLogger.Infof]

/-- Summed over distinct non-empty actuation constraints, the `Filter` results have as
many identifiers as there are records with one of these actuation statuses. -/
theorem sum_Filter_actuation {ID : Type} (m : ObjectStatusMap ID) (S : String)
    (bs : List String) (hnd : bs.Nodup) (hne : "" ∉ bs) :
    (bs.map (fun b => (m.Filter S b "").length)).sum = m.countRecords (fun st =>
      decide ((S = "" ∨ st.Strategy = S) ∧ st.Actuation ∈ bs)) := by
  induction bs with
  | nil =>
    simp only [List.map_nil, List.sum_nil, ObjectStatusMap.countRecords, List.not_mem_nil,
      and_false, decide_False]
    symm
    rw [List.countP_eq_zero]
    intro e _
    cases e.2 <;> simp
  | cons b bs ih =>
    have hb : ¬ b = "" := fun h => hne (h ▸ List.mem_cons_self _ _)
    have hnb : b ∉ bs := (List.nodup_cons.1 hnd).1
    rw [List.map_cons, List.sum_cons, ih (List.nodup_cons.1 hnd).2
      (fun h => hne (List.mem_cons_of_mem _ h)), Filter_length]
    symm
    apply countRecords_add
    intro id st _
    simp only [decide_eq_true_eq, List.mem_cons]
    constructor
    · constructor
      · rintro ⟨h1, h2 | h2⟩
        · exact Or.inl ⟨h1, Or.inr h2, Or.inl trivial⟩
        · exact Or.inr ⟨h1, h2⟩
      · rintro (⟨h1, h2, _⟩ | ⟨h1, h2⟩)
        · exact ⟨h1, Or.inl (h2.resolve_left hb)⟩
        · exact ⟨h1, Or.inr h2⟩
    · rintro ⟨⟨_, h2, _⟩, _, h3⟩
      exact hnb ((h2.resolve_left hb) ▸ h3)

/-- Summed over distinct non-empty reconcile constraints, the `Filter` results have as
many identifiers as there are records with one of these reconcile statuses. -/
theorem sum_Filter_reconcile {ID : Type} (m : ObjectStatusMap ID) (S : String)
    (bs : List String) (hnd : bs.Nodup) (hne : "" ∉ bs) :
    (bs.map (fun b => (m.Filter S "" b).length)).sum = m.countRecords (fun st =>
      decide ((S = "" ∨ st.Strategy = S) ∧ st.Reconcile ∈ bs)) := by
  induction bs with
  | nil =>
    simp only [List.map_nil, List.sum_nil, ObjectStatusMap.countRecords, List.not_mem_nil,
      and_false, decide_False]
    symm
    rw [List.countP_eq_zero]
    intro e _
    cases e.2 <;> simp
  | cons b bs ih =>
    have hb : ¬ b = "" := fun h => hne (h ▸ List.mem_cons_self _ _)
    have hnb : b ∉ bs := (List.nodup_cons.1 hnd).1
    rw [List.map_cons, List.sum_cons, ih (List.nodup_cons.1 hnd).2
      (fun h => hne (List.mem_cons_of_mem _ h)), Filter_length]
    symm
    apply countRecords_add
    intro id st _
    simp only [decide_eq_true_eq, List.mem_cons]
    constructor
    · constructor
      · rintro ⟨h1, h2 | h2⟩
        · exact Or.inl ⟨h1, Or.inl trivial, Or.inr h2⟩
        · exact Or.inr ⟨h1, h2⟩
      · rintro (⟨h1, _, h2⟩ | ⟨h1, h2⟩)
        · exact ⟨h1, Or.inl (h2.resolve_left hb)⟩
        · exact ⟨h1, Or.inr h2⟩
    · rintro ⟨⟨_, _, h2⟩, _, h3⟩
      exact hnb ((h2.resolve_left hb) ▸ h3)

/-- The count of an actuation loop is the number of records of the strategy whose
actuation status is one of the three logged values. -/
theorem actuationReport_total {ID : Type} [ToString ID] (m : ObjectStatusMap ID) (S : String) :
    (m.actuationReport S).1 = m.countRecords (fun st =>
      decide ((S = "" ∨ st.Strategy = S) ∧ st.Actuation ∈ actuationStatuses)) := by
  rw [← sum_Filter_actuation m S actuationStatuses (by decide) (by decide),
    actuationReport_count]
  simp [actuationStatuses, Nat.add_assoc]

/-- The count of a reconcile loop is the number of records of the strategy whose
reconcile status is one of the four logged values. -/
theorem reconcileReport_total {ID : Type} [ToString ID] (m : ObjectStatusMap ID) (S : String) :
    (m.reconcileReport S).1 = m.countRecords (fun st =>
      decide ((S = "" ∨ st.Strategy = S) ∧ st.Reconcile ∈ reconcileStatuses)) := by
  rw [← sum_Filter_reconcile m S reconcileStatuses (by decide) (by decide),
    reconcileReport_count]
  simp [reconcileStatuses, Nat.add_assoc]

/-- The entries of the scenario map. -/
theorem scenarioMap_entries : scenarioMap.entries =
    [("id1", some ⟨"Apply", "Succeeded", "Succeeded"⟩),
      ("id2", some ⟨"Apply", "Failed", "Pending"⟩),
      ("id3", some ⟨"Delete", "Succeeded", "Succeeded"⟩)] := by
  decide

/-- Assignment makes the key hold the assigned value. -/
theorem get_set_self {ID : Type} [DecidableEq ID] (m : ObjectStatusMap ID) (id : ID)
    (r : Option ObjectStatus) : (m.set id r).get id = some r := by
  rw [get_eq_some_iff]
  show (id, r) ∈ ObjectStatusMap.setEntries m.entries id r
  unfold ObjectStatusMap.setEntries
  split
  · rename_i h
    obtain ⟨e, he, hid⟩ := List.mem_map.1 h
    exact List.mem_map.2 ⟨e, he, by simp [hid]⟩
  · simp

/-- Constraints on the actuation status that differ select different identifiers. -/
theorem Filter_actuation_disjoint {ID : Type} (m : ObjectStatusMap ID) (S b c : String)
    (hb : ¬ b = "") (hc : ¬ c = "") (hbc : ¬ b = c) :
    (m.Filter S b "").Disjoint (m.Filter S c "") := by
  intro id h1 h2
  obtain ⟨st, hm, _, ha, _⟩ := (mem_Filter_entries m id S b "").1 h1
  obtain ⟨st2, hm2, _, ha2, _⟩ := (mem_Filter_entries m id S c "").1 h2
  have heq := entries_value_unique m id _ _ hm hm2
  cases heq
  exact hbc ((ha.resolve_left hb).symm.trans (ha2.resolve_left hc))

/-- Constraints on the reconcile status that differ select different identifiers. -/
theorem Filter_reconcile_disjoint {ID : Type} (m : ObjectStatusMap ID) (S b c : String)
    (hb : ¬ b = "") (hc : ¬ c = "") (hbc : ¬ b = c) :
    (m.Filter S "" b).Disjoint (m.Filter S "" c) := by
  intro id h1 h2
  obtain ⟨st, hm, _, _, ha⟩ := (mem_Filter_entries m id S "" b).1 h1
  obtain ⟨st2, hm2, _, _, ha2⟩ := (mem_Filter_entries m id S "" c).1 h2
  have heq := entries_value_unique m id _ _ hm hm2
  cases heq
  exact hbc ((ha.resolve_left hb).symm.trans (ha2.resolve_left hc))

/-- The concatenation of results that are duplicate-free and pairwise disjoint is
duplicate-free. -/
theorem flatMap_nodup_of_disjoint {ID : Type} (f : String → List ID) (bs : List String)
    (hnd : bs.Nodup) (hf : ∀ b ∈ bs, (f b).Nodup)
    (hd : ∀ b ∈ bs, ∀ c ∈ bs, ¬ b = c → (f b).Disjoint (f c)) :
    (bs.flatMap f).Nodup := by
  induction bs with
  | nil => simp
  | cons b bs ih =>
    rw [List.flatMap_cons, List.nodup_append]
    refine ⟨hf b (List.mem_cons_self _ _), ?_, ?_⟩
    · exact ih (List.nodup_cons.1 hnd).2 (fun c hc => hf c (List.mem_cons_of_mem _ hc))
        (fun c hc d hd2 hne => hd c (List.mem_cons_of_mem _ hc) d (List.mem_cons_of_mem _ hd2)
          hne)
    · intro id h1 h2
      obtain ⟨c, hc, hidc⟩ := List.mem_flatMap.1 h2
      have hne : ¬ b = c := fun h => (List.nodup_cons.1 hnd).1 (h ▸ hc)
      exact hd b (List.mem_cons_self _ _) c (List.mem_cons_of_mem _ hc) hne h1 hidc

/-- Without a record of a strategy, `Filter` on that strategy returns nothing. -/
theorem Filter_eq_nil_of_no_record {ID : Type} [DecidableEq ID] (m : ObjectStatusMap ID)
    (S a r : String) (hS : ¬ S = "")
    (h : ∀ id st, m.get id = some (some st) → st.Strategy ≠ S) : m.Filter S a r = [] := by
  rw [List.eq_nil_iff_forall_not_mem]
  intro id hmem
  obtain ⟨st, hg, hs, _⟩ := (mem_Filter_entries m id S a r).1 hmem
  exact h id st ((get_eq_some_iff m id (some st)).2 hg) (hs.resolve_left hS)

/-- A loop over empty `Filter` results leaves the count at 0. -/
theorem reports_zero_of_no_record {ID : Type} [DecidableEq ID] [ToString ID]
    (m : ObjectStatusMap ID) (S : String) (hS : ¬ S = "")
    (h : ∀ id st, m.get id = some (some st) → st.Strategy ≠ S) :
    (m.actuationReport S).1 = 0 ∧ (m.reconcileReport S).1 = 0 := by
  rw [actuationReport_count, reconcileReport_count]
  simp [Filter_eq_nil_of_no_record m S _ _ hS h]

/-- The short form of a message with total 0. -/
theorem formatTotal_zero (b : String) :
    formatTotal "Apply Actuations" 0 b = "Apply Actuations (Total: 0)"
      ∧ formatTotal "Apply Reconciles" 0 b = "Apply Reconciles (Total: 0)"
      ∧ formatTotal "Delete Actuations" 0 b = "Delete Actuations (Total: 0)"
      ∧ formatTotal "Delete Reconciles" 0 b = "Delete Reconciles (Total: 0)" := by
  unfold formatTotal
  simp only [if_true]
  decide

/-- When the entries are a rearrangement of a list, a `Filter` result is a rearrangement of
what the loop contributes on that list. -/
theorem Filter_perm {ID : Type} (m : ObjectStatusMap ID) (L : List (ID × Option ObjectStatus))
    (h : m.entries.Perm L) (s a r : String) :
    (m.Filter s a r).Perm (L.filterMap (selected s a r)) := by
  rw [Filter_eq_filterMap]
  exact h.filterMap _

/-- The non-nil records after `m[id] = nil` are the non-nil records under the other
keys. -/
theorem mem_set_nil_entries {ID : Type} [DecidableEq ID] (m : ObjectStatusMap ID)
    (id x : ID) (st : ObjectStatus) :
    (x, some st) ∈ (m.set id none).entries ↔ ¬ x = id ∧ (x, some st) ∈ m.entries := by
  show (x, some st) ∈ ObjectStatusMap.setEntries m.entries id none ↔ _
  unfold ObjectStatusMap.setEntries
  split
  · rw [List.mem_map]
    constructor
    · rintro ⟨⟨k, v⟩, hmem, he⟩
      by_cases hk : k = id
      · simp [hk] at he
      · simp only [hk, if_false, Prod.mk.injEq] at he
        obtain ⟨h1, h2⟩ := he
        subst h1
        subst h2
        exact ⟨hk, hmem⟩
    · rintro ⟨hx, hmem⟩
      exact ⟨(x, some st), hmem, by simp [hx]⟩
  · rename_i hid
    rw [List.mem_append]
    constructor
    · rintro (hmem | hmem)
      · refine ⟨?_, hmem⟩
        rintro rfl
        exact hid (List.mem_map.2 ⟨(x, some st), hmem, rfl⟩)
      · simp at hmem
    · rintro ⟨_, hmem⟩
      exact Or.inl hmem

/-- The entries after `delete(m, id)` are the entries under the other keys. -/
theorem mem_delete_entries {ID : Type} [DecidableEq ID] (m : ObjectStatusMap ID)
    (id x : ID) (v : Option ObjectStatus) :
    (x, v) ∈ (m.delete id).entries ↔ ¬ x = id ∧ (x, v) ∈ m.entries := by
  show (x, v) ∈ m.entries.filter (fun e => decide (¬ e.1 = id)) ↔ _
  rw [List.mem_filter]
  simp only [decide_eq_true_eq]
  tauto

/-- A key reserved with a nil record and a removed key give `Filter` the same
identifiers. -/
theorem mem_Filter_set_nil_iff_delete {ID : Type} [DecidableEq ID] (m : ObjectStatusMap ID)
    (id : ID) (s a r : String) (x : ID) :
    x ∈ (m.set id none).Filter s a r ↔ x ∈ (m.delete id).Filter s a r := by
  rw [mem_Filter_entries, mem_Filter_entries]
  simp only [mem_set_nil_entries, mem_delete_entries]

/-- Two maps whose `Filter` results hold the same identifiers have `Filter` results of the
same length. -/
theorem Filter_length_eq_of_mem_iff {ID : Type} (m m2 : ObjectStatusMap ID) (s a r : String)
    (h : ∀ x, x ∈ m.Filter s a r ↔ x ∈ m2.Filter s a r) :
    (m.Filter s a r).length = (m2.Filter s a r).length :=
  List.Perm.length_eq
    ((List.perm_ext_iff_of_nodup (Filter_nodup m s a r) (Filter_nodup m2 s a r)).2 h)

/-- The actuation line of `Log` for S, with the total written as the number of S records
in a logged actuation bucket; likewise the reconcile line. -/
theorem Log_lines_of_strategy {ID : Type} [ToString ID] (m : ObjectStatusMap ID)
    (S : ActuationStrategy) (hS : S = ActuationStrategyApply ∨ S = ActuationStrategyDelete) :
    formatTotal (S ++ " Actuations") (m.actuationReport S).1 (m.actuationReport S).2
        ∈ (m.Log ⟨true, []⟩).infos
      ∧ formatTotal (S ++ " Reconciles") (m.reconcileReport S).1 (m.reconcileReport S).2
        ∈ (m.Log ⟨true, []⟩).infos := by
  rw [Log_enabled_infos]
  rcases hS with rfl | rfl
  · have e1 : ActuationStrategyApply ++ " Actuations" = "Apply Actuations" := by decide
    have e2 : ActuationStrategyApply ++ " Reconciles" = "Apply Reconciles" := by decide
    rw [e1, e2]
    simp
  · have e1 : ActuationStrategyDelete ++ " Actuations" = "Delete Actuations" := by decide
    have e2 : ActuationStrategyDelete ++ " Reconciles" = "Delete Reconciles" := by decide
    rw [e1, e2]
    simp

/-- What `writeStatus` appends to the builder is the segment of the bucket. -/
theorem writeStatus_eq {ID : Type} [ToString ID] (b status : String) (ids : List ID) :
    writeStatus b status ids = b ++ segment status ids := by
  unfold writeStatus segment joinIDs commaSpaceDelimiter
  split
  · simp only [String.append_assoc]
    rfl
  · simp only [String.append_assoc]
    rfl

/-- The builder after an actuation loop holds the three segments, joined by the
delimiter. -/
theorem actuationReport_text {ID : Type} [ToString ID] (m : ObjectStatusMap ID) (S : String) :
    (m.actuationReport S).2 = ",\\n".intercalate
      [segment "Skipped" (m.Filter S "Skipped" ""),
        segment "Succeeded" (m.Filter S "Succeeded" ""),
        segment "Failed" (m.Filter S "Failed" "")] := by
  unfold ObjectStatusMap.actuationReport reportLoop
  simp only [actuationStatuses, List.enum, List.enumFrom, List.foldl, writeStatus_eq]
  rfl

/-- The builder after a reconcile loop holds the four segments, joined by the
delimiter. -/
theorem reconcileReport_text {ID : Type} [ToString ID] (m : ObjectStatusMap ID) (S : String) :
    (m.reconcileReport S).2 = ",\\n".intercalate
      [segment "Skipped" (m.Filter S "" "Skipped"),
        segment "Succeeded" (m.Filter S "" "Succeeded"),
        segment "Failed" (m.Filter S "" "Failed"),
        segment "Timeout" (m.Filter S "" "Timeout")] := by
  unfold ObjectStatusMap.reconcileReport reportLoop
  simp only [reconcileStatuses, List.enum, List.enumFrom, List.foldl, writeStatus_eq]
  rfl

/-- The two forms of a message, as one text: the label and the total, then nothing or the
bucket text. -/
theorem formatTotal_eq (label : String) (count : Nat) (b : String) :
    formatTotal label count b = label ++ " (Total: " ++ toString count ++ ")"
      ++ (if count = 0 then "" else ":\\n" ++ b) := by
  unfold formatTotal
  split
  · rename_i h
    simp only [String.append_assoc]
    rfl
  · rename_i h
    simp only [String.append_assoc]
    rfl

/-- The `Infof` calls among the calls of `Log` carry the messages `Log` adds to the
logger. -/
theorem infofMessages_LogSteps {ID : Type} [ToString ID] (m : ObjectStatusMap ID)
    (logger : infofLogger) :
    logger.infos ++ infofMessages (m.LogSteps logger) = (m.Log logger).infos := by
  obtain ⟨en, infos⟩ := logger
  cases en
  · simp [ObjectStatusMap.LogSteps, ObjectStatusMap.Log, infofLogger.Enabled, infofMessages]
  · rw [Log_enabled_infos]
    simp [ObjectStatusMap.LogSteps, infofLogger.Enabled, infofMessages, reportLoopSteps,
      actuationStatuses, reconcileStatuses, List.enum, List.enumFrom]

/-- Sorting forgets the order of the input: two rearrangements of the same names sort to
the same list. -/
theorem sorted_names_eq_of_perm (l l2 : List String) (h : l.Perm l2) :
    l.insertionSort (fun a b => a.data ≤ b.data)
      = l2.insertionSort (fun a b => a.data ≤ b.data) := by
  haveI : IsAntisymm String (fun a b => a.data ≤ b.data) :=
    ⟨fun a b h1 h2 => String.ext (le_antisymm h1 h2)⟩
  haveI : IsTotal String (fun a b => a.data ≤ b.data) :=
    ⟨fun a b => le_total a.data b.data⟩
  haveI : IsTrans String (fun a b => a.data ≤ b.data) :=
    ⟨fun a b c h1 h2 => le_trans h1 h2⟩
  apply List.eq_of_perm_of_sorted (r := fun a b : String => a.data ≤ b.data)
  · exact ((List.perm_insertionSort _ l).trans h).trans (List.perm_insertionSort _ l2).symm
  · exact List.sorted_insertionSort _ l
  · exact List.sorted_insertionSort _ l2

/-- What `writeStatus` appends does not depend on the order of the identifiers. -/
theorem writeStatus_eq_of_perm {ID : Type} [ToString ID] (b status : String)
    (ids ids2 : List ID) (h : ids.Perm ids2) :
    writeStatus b status ids = writeStatus b status ids2 := by
  unfold writeStatus joinIDs
  rw [h.length_eq, sorted_names_eq_of_perm _ _ (h.map toString)]

/-- The count and the text of a loop of `Log` do not depend on the order inside the
`Filter` results, each of which may be in an order of its own. -/
theorem reportLoop_eq_of_perm {ID : Type} [ToString ID] (q q2 : String → List ID)
    (statuses : List String) (h : ∀ status, (q status).Perm (q2 status)) :
    reportLoop q statuses = reportLoop q2 statuses := by
  unfold reportLoop
  have hstep : (fun (st : Nat × String) (p : Nat × String) =>
        let b := if p.1 > 0 then st.2 ++ commaEscapedNewlineDelimiter else st.2
        let ids := q p.2
        (st.1 + ids.length, writeStatus b p.2 ids))
      = (fun (st : Nat × String) (p : Nat × String) =>
        let b := if p.1 > 0 then st.2 ++ commaEscapedNewlineDelimiter else st.2
        let ids := q2 p.2
        (st.1 + ids.length, writeStatus b p.2 ids)) := by
    funext st p
    simp only [(h p.2).length_eq, writeStatus_eq_of_perm _ _ _ _ (h p.2)]
  rw [hstep]

/-- Two visiting orders of the same records give `Filter` results that are rearrangements
of each other. -/
theorem Filter_perm_of_entries_perm {ID : Type} (m m2 : ObjectStatusMap ID)
    (h : m.entries.Perm m2.entries) (s a r : String) :
    (m.Filter s a r).Perm (m2.Filter s a r) := by
  rw [Filter_eq_filterMap m2]
  exact Filter_perm m _ h s a r

/-- When every S record has an actuation status among Pending, Skipped, Succeeded, Failed,
the count of the S-actuation loop is the number of S records minus the pending ones. -/
theorem actuationReport_touched_minus_pending {ID : Type} [DecidableEq ID] [ToString ID]
    (m : ObjectStatusMap ID) (S : ActuationStrategy) (hSne : ¬ S = "")
    (hA : ∀ id st, m.get id = some (some st) → st.Strategy = S →
      st.Actuation ∈ [ActuationPending, ActuationSkipped, ActuationSucceeded, ActuationFailed]) :
    (m.actuationReport S).1 = (m.Filter S "" "").length
      - m.countRecords (fun st => decide (st.Strategy = S ∧ st.Actuation = ActuationPending)) := by
  rw [actuationReport_total, Filter_length]
  have hadd := countRecords_add m
    (fun st => decide ((S = "" ∨ st.Strategy = S) ∧ st.Actuation ∈ actuationStatuses))
    (fun st => decide (st.Strategy = S ∧ st.Actuation = ActuationPending))
    (fun st => decide ((S = "" ∨ st.Strategy = S) ∧ (("" : String) = "" ∨ st.Actuation = "")
      ∧ (("" : String) = "" ∨ st.Reconcile = "")))
    (by
      intro id st hmem
      have hst := hA id st ((get_eq_some_iff m id (some st)).2 hmem)
      simp only [decide_eq_true_eq, actuationStatuses, List.mem_cons, List.mem_singleton,
        List.not_mem_nil, or_false, hSne, false_or, true_or, and_true] at hst ⊢
      constructor
      · constructor
        · intro h
          rcases hst h with h2 | h2 | h2 | h2
          · exact Or.inr ⟨h, h2⟩
          · exact Or.inl ⟨h, Or.inl h2⟩
          · exact Or.inl ⟨h, Or.inr (Or.inl h2)⟩
          · exact Or.inl ⟨h, Or.inr (Or.inr h2)⟩
        · rintro (⟨h, _⟩ | ⟨h, _⟩) <;> exact h
      · rintro ⟨⟨_, h2⟩, _, h3⟩
        rw [h3] at h2
        revert h2
        decide)
  omega

/-- When every S record has a reconcile status among Pending, Skipped, Succeeded, Failed,
Timeout, the count of the S-reconcile loop is the number of S records minus the pending
ones. -/
theorem reconcileReport_touched_minus_pending {ID : Type} [DecidableEq ID] [ToString ID]
    (m : ObjectStatusMap ID) (S : ActuationStrategy) (hSne : ¬ S = "")
    (hR : ∀ id st, m.get id = some (some st) → st.Strategy = S →
      st.Reconcile ∈ [ReconcilePending, ReconcileSkipped, ReconcileSucceeded, ReconcileFailed,
        ReconcileTimeout]) :
    (m.reconcileReport S).1 = (m.Filter S "" "").length
      - m.countRecords (fun st => decide (st.Strategy = S ∧ st.Reconcile = ReconcilePending)) := by
  rw [reconcileReport_total, Filter_length]
  have hadd := countRecords_add m
    (fun st => decide ((S = "" ∨ st.Strategy = S) ∧ st.Reconcile ∈ reconcileStatuses))
    (fun st => decide (st.Strategy = S ∧ st.Reconcile = ReconcilePending))
    (fun st => decide ((S = "" ∨ st.Strategy = S) ∧ (("" : String) = "" ∨ st.Actuation = "")
      ∧ (("" : String) = "" ∨ st.Reconcile = "")))
    (by
      intro id st hmem
      have hst := hR id st ((get_eq_some_iff m id (some st)).2 hmem)
      simp only [decide_eq_true_eq, reconcileStatuses, List.mem_cons, List.mem_singleton,
        List.not_mem_nil, or_false, hSne, false_or, true_or, and_true] at hst ⊢
      constructor
      · constructor
        · intro h
          rcases hst h with h2 | h2 | h2 | h2 | h2
          · exact Or.inr ⟨h, h2⟩
          · exact Or.inl ⟨h, Or.inl h2⟩
          · exact Or.inl ⟨h, Or.inr (Or.inl h2)⟩
          · exact Or.inl ⟨h, Or.inr (Or.inr (Or.inl h2))⟩
          · exact Or.inl ⟨h, Or.inr (Or.inr (Or.inr h2))⟩
        · rintro (⟨h, _⟩ | ⟨h, _⟩) <;> exact h
      · rintro ⟨⟨_, h2⟩, _, h3⟩
        rw [h3] at h2
        revert h2
        decide)
  omega

/-! ## Properties -/

/-- C1: an identifier occurs in `m.Filter(strategy, actuation, reconcile)` if and only if
the map holds a non-nil record for it and each constraint is the empty string or equals
the corresponding field of that record. -/
theorem Filter_mem_iff {ID : Type} [DecidableEq ID] (m : ObjectStatusMap ID) (id : ID)
    (strategy actuation reconcile : String) :
    id ∈ m.Filter strategy actuation reconcile ↔
      ∃ status, m.get id = some (some status)
        ∧ (strategy = "" ∨ status.Strategy = strategy)
        ∧ (actuation = "" ∨ status.Actuation = actuation)
        ∧ (reconcile = "" ∨ status.Reconcile = reconcile) := by
  rw [mem_Filter_entries]
  simp only [get_eq_some_iff]

/-- C2: an identifier that is mapped to a nil record, or that is not a key of the map,
occurs in no `Filter` result, whatever the constraints (the all-empty ones included). -/
theorem Filter_excludes_nil_and_absent {ID : Type} [DecidableEq ID] (m : ObjectStatusMap ID)
    (id : ID) (strategy actuation reconcile : String)
    (h : m.get id = some none ∨ m.get id = none) :
    id ∉ m.Filter strategy actuation reconcile := by
  intro hmem
  obtain ⟨st, hget, _⟩ := (mem_Filter_get m id strategy actuation reconcile).1 hmem
  rcases h with h | h <;> rw [hget] at h <;> simp at h

/-- Witness of C2 on the map with a reserved key: `id4` holds a nil record, `id5` is not
a key, and neither is returned by the unconstrained `Filter`. -/
theorem Filter_excludes_nil_and_absent_witness :
    "id4" ∉ reservedMap.Filter "" "" "" ∧ "id5" ∉ reservedMap.Filter "" "" "" :=
  ⟨Filter_excludes_nil_and_absent reservedMap "id4" "" "" "" (Or.inl (by decide)),
    Filter_excludes_nil_and_absent reservedMap "id5" "" "" "" (Or.inr (by decide))⟩

/-- C3, as stated, fails: for the map whose one Apply record has empty statuses, `Log`
prints total 0 in both Apply lines, while `len(m.Filter(Apply, "", ""))` minus the number
of pending Apply records is 1 in both dimensions. -/
theorem Log_total_not_touched_minus_pending :
    (unsetMap.Log ⟨true, []⟩).infos
        = ["Apply Actuations (Total: 0)", "Apply Reconciles (Total: 0)",
            "Delete Actuations (Total: 0)", "Delete Reconciles (Total: 0)"]
      ∧ (unsetMap.Filter ActuationStrategyApply "" "").length
          - unsetMap.countRecords (fun st => decide (st.Strategy = ActuationStrategyApply
              ∧ st.Actuation = ActuationPending)) = 1
      ∧ (unsetMap.Filter ActuationStrategyApply "" "").length
          - unsetMap.countRecords (fun st => decide (st.Strategy = ActuationStrategyApply
              ∧ st.Reconcile = ReconcilePending)) = 1 := by
  decide

/-- C3, amended: for a strategy S in {Apply, Delete}: when every S record has an actuation
status among Pending, Skipped, Succeeded, Failed, the S-actuation message of `Log` is the
label followed by the total `len(m.Filter(S, "", ""))` minus the number of S records with
actuation Pending (and, unless that total is zero, by the segments of the buckets); when
every S record has a reconcile status among Pending, Skipped, Succeeded, Failed, Timeout,
the S-reconcile message carries the total `len(m.Filter(S, "", ""))` minus the number of S
records with reconcile Pending. -/
theorem Log_total_is_touched_minus_pending {ID : Type} [DecidableEq ID] [ToString ID]
    (m : ObjectStatusMap ID) (S : ActuationStrategy)
    (hS : S = ActuationStrategyApply ∨ S = ActuationStrategyDelete) :
    ((∀ id st, m.get id = some (some st) → st.Strategy = S →
          st.Actuation
            ∈ [ActuationPending, ActuationSkipped, ActuationSucceeded, ActuationFailed]) →
        S ++ " Actuations" ++ " (Total: "
            ++ toString ((m.Filter S "" "").length - m.countRecords (fun st =>
                decide (st.Strategy = S ∧ st.Actuation = ActuationPending)))
            ++ ")"
            ++ (if (m.Filter S "" "").length - m.countRecords (fun st =>
                decide (st.Strategy = S ∧ st.Actuation = ActuationPending)) = 0 then ""
              else ":\\n" ++ ",\\n".intercalate
                [segment "Skipped" (m.Filter S "Skipped" ""),
                  segment "Succeeded" (m.Filter S "Succeeded" ""),
                  segment "Failed" (m.Filter S "Failed" "")])
          ∈ (m.Log ⟨true, []⟩).infos)
      ∧ ((∀ id st, m.get id = some (some st) → st.Strategy = S →
          st.Reconcile ∈ [ReconcilePending, ReconcileSkipped, ReconcileSucceeded,
            ReconcileFailed, ReconcileTimeout]) →
        S ++ " Reconciles" ++ " (Total: "
            ++ toString ((m.Filter S "" "").length - m.countRecords (fun st =>
                decide (st.Strategy = S ∧ st.Reconcile = ReconcilePending)))
            ++ ")"
            ++ (if (m.Filter S "" "").length - m.countRecords (fun st =>
                decide (st.Strategy = S ∧ st.Reconcile = ReconcilePending)) = 0 then ""
              else ":\\n" ++ ",\\n".intercalate
                [segment "Skipped" (m.Filter S "" "Skipped"),
                  segment "Succeeded" (m.Filter S "" "Succeeded"),
                  segment "Failed" (m.Filter S "" "Failed"),
                  segment "Timeout" (m.Filter S "" "Timeout")])
          ∈ (m.Log ⟨true, []⟩).infos) := by
  have hSne : ¬ S = "" := by rcases hS with rfl | rfl <;> decide
  have hfmt : ∀ (label : String) (count : Nat) (b : String),
      formatTotal label count b = label ++ " (Total: " ++ toString count ++ ")"
        ++ (if count = 0 then "" else ":\\n" ++ b) := by
    intro label count b
    unfold formatTotal
    split <;> (simp only [String.append_assoc]; rfl)
  constructor
  · intro hA
    have h := (Log_lines_of_strategy m S hS).1
    rw [hfmt, actuationReport_text, actuationReport_touched_minus_pending m S hSne hA] at h
    exact h
  · intro hR
    have h := (Log_lines_of_strategy m S hS).2
    rw [hfmt, reconcileReport_text, reconcileReport_touched_minus_pending m S hSne hR] at h
    exact h

/-- Witness of the amended C3 on the scenario map, strategy Apply: two Apply records, none
pending in actuation (total 2) and one pending in reconcile (total 1). -/
theorem Log_total_is_touched_minus_pending_witness :
    "Apply Actuations (Total: 2):\\nSkipped (0),\\nSucceeded (1): [id1],\\nFailed (1): [id2]"
        ∈ (scenarioMap.Log ⟨true, []⟩).infos
      ∧ "Apply Reconciles (Total: 1):\\nSkipped (0),\\nSucceeded (1): [id1],\\nFailed (0),\\nTimeout (0)"
        ∈ (scenarioMap.Log ⟨true, []⟩).infos :=
  ⟨(Log_total_is_touched_minus_pending scenarioMap ActuationStrategyApply (Or.inl rfl)).1
      (by
        intro id st h _
        have hm := (get_eq_some_iff scenarioMap id (some st)).1 h
        rw [scenarioMap_entries] at hm
        simp only [List.mem_cons, Prod.mk.injEq, Option.some.injEq, List.mem_singleton,
          List.not_mem_nil, or_false] at hm
        rcases hm with ⟨_, rfl⟩ | ⟨_, rfl⟩ | ⟨_, rfl⟩ <;> decide),
    (Log_total_is_touched_minus_pending scenarioMap ActuationStrategyApply (Or.inl rfl)).2
      (by
        intro id st h _
        have hm := (get_eq_some_iff scenarioMap id (some st)).1 h
        rw [scenarioMap_entries] at hm
        simp only [List.mem_cons, Prod.mk.injEq, Option.some.injEq, List.mem_singleton,
          List.not_mem_nil, or_false] at hm
        rcases hm with ⟨_, rfl⟩ | ⟨_, rfl⟩ | ⟨_, rfl⟩ <;> decide)⟩

/-- C4: in each report of `Log` no identifier is counted more than once: the
concatenation of the `Filter` results over the buckets of an actuation report (Skipped,
Succeeded, Failed) and over the buckets of a reconcile report (Skipped, Succeeded, Failed,
Timeout) has no identifier twice, for the strategies Apply and Delete (and any other). -/
theorem Log_reports_count_once {ID : Type} (m : ObjectStatusMap ID) (S : ActuationStrategy) :
    (actuationStatuses.flatMap (fun status => m.Filter S status "")).Nodup
      ∧ (reconcileStatuses.flatMap (fun status => m.Filter S "" status)).Nodup := by
  constructor
  · apply flatMap_nodup_of_disjoint _ _ (by decide) (fun b _ => Filter_nodup m S b "")
    intro b hb c hc hne
    have hb0 : ¬ b = "" := by
      rintro rfl
      revert hb
      decide
    have hc0 : ¬ c = "" := by
      rintro rfl
      revert hc
      decide
    exact Filter_actuation_disjoint m S b c hb0 hc0 hne
  · apply flatMap_nodup_of_disjoint _ _ (by decide) (fun b _ => Filter_nodup m S "" b)
    intro b hb c hc hne
    have hb0 : ¬ b = "" := by
      rintro rfl
      revert hb
      decide
    have hc0 : ¬ c = "" := by
      rintro rfl
      revert hc
      decide
    exact Filter_reconcile_disjoint m S b c hb0 hc0 hne

/-- C5: `m.Filter(Apply, Succeeded, "")` holds exactly the identifiers whose record has
strategy Apply and actuation Succeeded, whatever the reconcile status, and shares no
identifier with `m.Filter(Delete, a, r)`, whatever the constraints `a` and `r`. -/
theorem Filter_apply_succeeded_exact {ID : Type} [DecidableEq ID] (m : ObjectStatusMap ID) :
    (∀ id, id ∈ m.Filter ActuationStrategyApply ActuationSucceeded "" ↔
        ∃ st, m.get id = some (some st) ∧ st.Strategy = ActuationStrategyApply
          ∧ st.Actuation = ActuationSucceeded)
      ∧ ∀ a r, (m.Filter ActuationStrategyApply ActuationSucceeded "").Disjoint
          (m.Filter ActuationStrategyDelete a r) := by
  constructor
  · intro id
    rw [mem_Filter_get]
    constructor
    · rintro ⟨st, hg, h1, h2, _⟩
      exact ⟨st, hg, h1.resolve_left (by decide), h2.resolve_left (by decide)⟩
    · rintro ⟨st, hg, h1, h2⟩
      exact ⟨st, hg, Or.inr h1, Or.inr h2, Or.inl rfl⟩
  · intro a r id h1 h2
    obtain ⟨st, hm, hs, _⟩ := (mem_Filter_entries m id _ _ _).1 h1
    obtain ⟨st2, hm2, hs2, _⟩ := (mem_Filter_entries m id _ _ _).1 h2
    have heq := entries_value_unique m id _ _ hm hm2
    cases heq
    have e1 := hs.resolve_left (by decide)
    have e2 := hs2.resolve_left (by decide)
    rw [e1] at e2
    revert e2
    decide

/-- C6: after the assignments `m[id] = r1` and then `m[id] = r2`, looking up `id` yields
`r2` itself, and `id` is a key of the map once. -/
theorem set_set_get {ID : Type} [DecidableEq ID] (m : ObjectStatusMap ID) (id : ID)
    (r1 r2 : Option ObjectStatus) :
    ((m.set id r1).set id r2).get id = some r2
      ∧ ((m.set id r1).set id r2).keys.count id = 1 := by
  refine ⟨get_set_self _ id r2, ?_⟩
  apply List.count_eq_one_of_mem ((m.set id r1).set id r2).nodupKeys
  have h := (get_eq_some_iff _ id r2).1 (get_set_self (m.set id r1) id r2)
  exact List.mem_map.2 ⟨(id, r2), h, rfl⟩

/-- C7: `m.Filter("", "", "")` holds exactly the identifiers with a non-nil record, none
of them twice, so its length is the number of keys whose record is non-nil. -/
theorem Filter_unconstrained {ID : Type} [DecidableEq ID] (m : ObjectStatusMap ID) :
    (∀ id, id ∈ m.Filter "" "" "" ↔ ∃ st, m.get id = some (some st))
      ∧ (m.Filter "" "" "").Nodup
      ∧ (m.Filter "" "" "").length = m.countRecords (fun _ => true) := by
  refine ⟨?_, Filter_nodup m "" "" "", ?_⟩
  · intro id
    rw [mem_Filter_get]
    simp
  · rw [Filter_length]
    simp

/-- C8: with an enabled logger, when no record of the map has strategy Apply, the two
Apply lines of `Log` are the short messages with total 0, without bucket segments and
without identifier list; likewise the two Delete lines when no record has strategy
Delete. -/
theorem Log_zero_count {ID : Type} [DecidableEq ID] [ToString ID] (m : ObjectStatusMap ID)
    (infos : List String) :
    ((∀ id st, m.get id = some (some st) → st.Strategy ≠ ActuationStrategyApply) →
        (m.Log ⟨true, infos⟩).infos = infos ++
          ["Apply Actuations (Total: 0)", "Apply Reconciles (Total: 0)",
            formatTotal "Delete Actuations" (m.actuationReport ActuationStrategyDelete).1
              (m.actuationReport ActuationStrategyDelete).2,
            formatTotal "Delete Reconciles" (m.reconcileReport ActuationStrategyDelete).1
              (m.reconcileReport ActuationStrategyDelete).2])
      ∧ ((∀ id st, m.get id = some (some st) → st.Strategy ≠ ActuationStrategyDelete) →
        (m.Log ⟨true, infos⟩).infos = infos ++
          [formatTotal "Apply Actuations" (m.actuationReport ActuationStrategyApply).1
              (m.actuationReport ActuationStrategyApply).2,
            formatTotal "Apply Reconciles" (m.reconcileReport ActuationStrategyApply).1
              (m.reconcileReport ActuationStrategyApply).2,
            "Delete Actuations (Total: 0)", "Delete Reconciles (Total: 0)"]) := by
  constructor
  · intro h
    obtain ⟨h1, h2⟩ := reports_zero_of_no_record m ActuationStrategyApply (by decide) h
    rw [Log_enabled_infos, h1, h2, (formatTotal_zero _).1, (formatTotal_zero _).2.1]
  · intro h
    obtain ⟨h1, h2⟩ := reports_zero_of_no_record m ActuationStrategyDelete (by decide) h
    rw [Log_enabled_infos, h1, h2, (formatTotal_zero _).2.2.1, (formatTotal_zero _).2.2.2]

/-- Witness of C8: a map with one Delete record has the two short Apply lines, a map with
one Apply record has the two short Delete lines. -/
theorem Log_zero_count_witness :
    (deleteOnlyMap.Log ⟨true, []⟩).infos =
        ["Apply Actuations (Total: 0)", "Apply Reconciles (Total: 0)",
          "Delete Actuations (Total: 1):\\nSkipped (0),\\nSucceeded (1): [id3],\\nFailed (0)",
          "Delete Reconciles (Total: 1):\\nSkipped (0),\\nSucceeded (1): [id3],\\nFailed (0),\\nTimeout (0)"]
      ∧ (applyOnlyMap.Log ⟨true, []⟩).infos =
        ["Apply Actuations (Total: 1):\\nSkipped (0),\\nSucceeded (1): [id1],\\nFailed (0)",
          "Apply Reconciles (Total: 1):\\nSkipped (0),\\nSucceeded (0),\\nFailed (0),\\nTimeout (1): [id1]",
          "Delete Actuations (Total: 0)", "Delete Reconciles (Total: 0)"] :=
  ⟨(Log_zero_count deleteOnlyMap []).1 (by
      intro id st h
      have hm := (get_eq_some_iff deleteOnlyMap id (some st)).1 h
      have he : deleteOnlyMap.entries = [("id3", some ⟨"Delete", "Succeeded", "Succeeded"⟩)] := by
        decide
      rw [he] at hm
      simp only [List.mem_singleton, Prod.mk.injEq, Option.some.injEq] at hm
      rw [hm.2]
      decide),
    (Log_zero_count applyOnlyMap []).2 (by
      intro id st h
      have hm := (get_eq_some_iff applyOnlyMap id (some st)).1 h
      have he : applyOnlyMap.entries = [("id1", some ⟨"Apply", "Succeeded", "Timeout"⟩)] := by
        decide
      rw [he] at hm
      simp only [List.mem_singleton, Prod.mk.injEq, Option.some.injEq] at hm
      rw [hm.2]
      decide)⟩

/-- C9, as stated, fails: in the scenario map the segments of the bucket text are joined
by the comma and escaped newline that `Log` writes between them, not by comma and
space. -/
theorem scenario_bucket_text_not_comma_space :
    scenarioMap.actuationReport ActuationStrategyApply
        = (2, "Skipped (0),\\nSucceeded (1): [id1],\\nFailed (1): [id2]")
      ∧ (scenarioMap.actuationReport ActuationStrategyApply).2
        ≠ "Skipped (0), Succeeded (1): [id1], Failed (1): [id2]"
      ∧ scenarioMap.actuationReport ActuationStrategyDelete
        = (1, "Skipped (0),\\nSucceeded (1): [id3],\\nFailed (0)")
      ∧ (scenarioMap.actuationReport ActuationStrategyDelete).2
        ≠ "Skipped (0), Succeeded (1): [id3], Failed (0)" := by
  decide

/-- C9, amended: for a map that holds exactly `id1: (Apply, Succeeded, Succeeded)`,
`id2: (Apply, Failed, Pending)` and `id3: (Delete, Succeeded, Succeeded)`, in any visiting
order, the Apply-actuation report of `Log` has total 2 and the bucket text
`Skipped (0)`, `Succeeded (1): [id1]`, `Failed (1): [id2]` joined by comma and escaped
newline, the Delete-actuation report has total 1 and the bucket text `Skipped (0)`,
`Succeeded (1): [id3]`, `Failed (0)` joined the same way, and these are the first and the
third message of `Log`. -/
theorem scenario_reports {ID : Type} [ToString ID] (m : ObjectStatusMap ID) (id1 id2 id3 : ID)
    (h : m.entries.Perm
      [(id1, some ⟨ActuationStrategyApply, ActuationSucceeded, ReconcileSucceeded⟩),
        (id2, some ⟨ActuationStrategyApply, ActuationFailed, ReconcilePending⟩),
        (id3, some ⟨ActuationStrategyDelete, ActuationSucceeded, ReconcileSucceeded⟩)]) :
    m.actuationReport ActuationStrategyApply
        = (2, "Skipped (0),\\nSucceeded (1): [" ++ toString id1 ++ "],\\nFailed (1): ["
            ++ toString id2 ++ "]")
      ∧ m.actuationReport ActuationStrategyDelete
        = (1, "Skipped (0),\\nSucceeded (1): [" ++ toString id3 ++ "],\\nFailed (0)")
      ∧ (m.Log ⟨true, []⟩).infos =
        ["Apply Actuations (Total: 2):\\nSkipped (0),\\nSucceeded (1): [" ++ toString id1
            ++ "],\\nFailed (1): [" ++ toString id2 ++ "]",
          formatTotal "Apply Reconciles" (m.reconcileReport ActuationStrategyApply).1
            (m.reconcileReport ActuationStrategyApply).2,
          "Delete Actuations (Total: 1):\\nSkipped (0),\\nSucceeded (1): [" ++ toString id3
            ++ "],\\nFailed (0)",
          formatTotal "Delete Reconciles" (m.reconcileReport ActuationStrategyDelete).1
            (m.reconcileReport ActuationStrategyDelete).2] := by
  have a1 : m.Filter ActuationStrategyApply ActuationSkipped "" = [] := by
    simpa [selected, ActuationStrategyApply, ActuationStrategyDelete, ActuationSkipped,
      ActuationSucceeded, ActuationFailed] using Filter_perm m _ h "Apply" "Skipped" ""
  have a2 : m.Filter ActuationStrategyApply ActuationSucceeded "" = [id1] := by
    simpa [selected, ActuationStrategyApply, ActuationStrategyDelete, ActuationSkipped,
      ActuationSucceeded, ActuationFailed] using Filter_perm m _ h "Apply" "Succeeded" ""
  have a3 : m.Filter ActuationStrategyApply ActuationFailed "" = [id2] := by
    simpa [selected, ActuationStrategyApply, ActuationStrategyDelete, ActuationSkipped,
      ActuationSucceeded, ActuationFailed] using Filter_perm m _ h "Apply" "Failed" ""
  have d1 : m.Filter ActuationStrategyDelete ActuationSkipped "" = [] := by
    simpa [selected, ActuationStrategyApply, ActuationStrategyDelete, ActuationSkipped,
      ActuationSucceeded, ActuationFailed] using Filter_perm m _ h "Delete" "Skipped" ""
  have d2 : m.Filter ActuationStrategyDelete ActuationSucceeded "" = [id3] := by
    simpa [selected, ActuationStrategyApply, ActuationStrategyDelete, ActuationSkipped,
      ActuationSucceeded, ActuationFailed] using Filter_perm m _ h "Delete" "Succeeded" ""
  have d3 : m.Filter ActuationStrategyDelete ActuationFailed "" = [] := by
    simpa [selected, ActuationStrategyApply, ActuationStrategyDelete, ActuationSkipped,
      ActuationSucceeded, ActuationFailed] using Filter_perm m _ h "Delete" "Failed" ""
  have rA : m.actuationReport ActuationStrategyApply
      = (2, "Skipped (0),\\nSucceeded (1): [" ++ toString id1 ++ "],\\nFailed (1): ["
          ++ toString id2 ++ "]") := by
    unfold ObjectStatusMap.actuationReport reportLoop
    simp only [actuationStatuses, List.enum, List.enumFrom, List.foldl, a1, a2, a3,
      writeStatus, List.length_nil, List.length_singleton, gt_iff_lt, Nat.lt_irrefl,
      Nat.zero_add, Nat.reduceAdd, Nat.reduceLT, Nat.reduceEqDiff, if_true, if_false,
      String.append_assoc]
    rfl
  have rD : m.actuationReport ActuationStrategyDelete
      = (1, "Skipped (0),\\nSucceeded (1): [" ++ toString id3 ++ "],\\nFailed (0)") := by
    unfold ObjectStatusMap.actuationReport reportLoop
    simp only [actuationStatuses, List.enum, List.enumFrom, List.foldl, d1, d2, d3,
      writeStatus, List.length_nil, List.length_singleton, gt_iff_lt, Nat.lt_irrefl,
      Nat.zero_add, Nat.reduceAdd, Nat.reduceLT, Nat.reduceEqDiff, if_true, if_false,
      String.append_assoc]
    rfl
  refine ⟨rA, rD, ?_⟩
  rw [Log_enabled_infos, rA, rD]
  simp only [formatTotal, Nat.reduceEqDiff, if_false, String.append_assoc, List.nil_append]
  rfl

/-- Witness of the amended C9 on the scenario map with the identifiers `id1`, `id2`,
`id3`. -/
theorem scenario_reports_witness :
    scenarioMap.actuationReport ActuationStrategyApply
        = (2, "Skipped (0),\\nSucceeded (1): [id1],\\nFailed (1): [id2]")
      ∧ scenarioMap.actuationReport ActuationStrategyDelete
        = (1, "Skipped (0),\\nSucceeded (1): [id3],\\nFailed (0)")
      ∧ (scenarioMap.Log ⟨true, []⟩).infos =
        ["Apply Actuations (Total: 2):\\nSkipped (0),\\nSucceeded (1): [id1],\\nFailed (1): [id2]",
          "Apply Reconciles (Total: 1):\\nSkipped (0),\\nSucceeded (1): [id1],\\nFailed (0),\\nTimeout (0)",
          "Delete Actuations (Total: 1):\\nSkipped (0),\\nSucceeded (1): [id3],\\nFailed (0)",
          "Delete Reconciles (Total: 1):\\nSkipped (0),\\nSucceeded (1): [id3],\\nFailed (0),\\nTimeout (0)"] :=
  scenario_reports scenarioMap "id1" "id2" "id3" (scenarioMap_entries ▸ List.Perm.refl _)

/-- C10: for the map without entries (an empty map, or a nil map), `Log` with an enabled
logger emits exactly the four short messages with total 0, in source order. -/
theorem Log_empty {ID : Type} [ToString ID] (infos : List String) :
    ((ObjectStatusMap.empty : ObjectStatusMap ID).Log ⟨true, infos⟩).infos = infos ++
      ["Apply Actuations (Total: 0)", "Apply Reconciles (Total: 0)",
        "Delete Actuations (Total: 0)", "Delete Reconciles (Total: 0)"] := by
  rw [Log_enabled_infos]
  have hz : ∀ S, ((ObjectStatusMap.empty : ObjectStatusMap ID).actuationReport S).1 = 0
      ∧ ((ObjectStatusMap.empty : ObjectStatusMap ID).reconcileReport S).1 = 0 := by
    intro S
    rw [actuationReport_count, reconcileReport_count]
    simp [ObjectStatusMap.Filter, ObjectStatusMap.empty]
  rw [(hz _).1, (hz _).2, (hz _).1, (hz _).2, (formatTotal_zero _).1, (formatTotal_zero _).2.1,
    (formatTotal_zero _).2.2.1, (formatTotal_zero _).2.2.2]

/-- C13: a key reserved with a nil record is treated like a key that was never set: for
every constraint triple, `Filter` on the map with `id` mapped to nil holds the same
identifiers as `Filter` on the map with `id` removed, the four totals of `Log` are the same
for both maps, and so the messages of the first map carry the totals of the second. -/
theorem nil_record_like_removed_key {ID : Type} [DecidableEq ID] [ToString ID]
    (m : ObjectStatusMap ID) (id : ID) :
    (∀ s a r x, x ∈ (m.set id none).Filter s a r ↔ x ∈ (m.delete id).Filter s a r)
      ∧ (∀ S, ((m.set id none).actuationReport S).1 = ((m.delete id).actuationReport S).1
          ∧ ((m.set id none).reconcileReport S).1 = ((m.delete id).reconcileReport S).1)
      ∧ ∀ infos, ((m.set id none).Log ⟨true, infos⟩).infos = infos ++
          [formatTotal "Apply Actuations" ((m.delete id).actuationReport ActuationStrategyApply).1
              ((m.set id none).actuationReport ActuationStrategyApply).2,
            formatTotal "Apply Reconciles" ((m.delete id).reconcileReport ActuationStrategyApply).1
              ((m.set id none).reconcileReport ActuationStrategyApply).2,
            formatTotal "Delete Actuations"
              ((m.delete id).actuationReport ActuationStrategyDelete).1
              ((m.set id none).actuationReport ActuationStrategyDelete).2,
            formatTotal "Delete Reconciles"
              ((m.delete id).reconcileReport ActuationStrategyDelete).1
              ((m.set id none).reconcileReport ActuationStrategyDelete).2] := by
  have hlen : ∀ s a r, ((m.set id none).Filter s a r).length
      = ((m.delete id).Filter s a r).length := fun s a r =>
    Filter_length_eq_of_mem_iff _ _ s a r (mem_Filter_set_nil_iff_delete m id s a r)
  have htot : ∀ S, ((m.set id none).actuationReport S).1 = ((m.delete id).actuationReport S).1
      ∧ ((m.set id none).reconcileReport S).1 = ((m.delete id).reconcileReport S).1 := by
    intro S
    rw [actuationReport_count, actuationReport_count, reconcileReport_count,
      reconcileReport_count]
    simp only [hlen, and_self]
  refine ⟨fun s a r x => mem_Filter_set_nil_iff_delete m id s a r x, htot, ?_⟩
  intro infos
  rw [Log_enabled_infos, (htot _).1, (htot _).2, (htot _).1, (htot _).2]

/-- C15: for S in {Apply, Delete}, the total of the S-actuation line of `Log` is the number
of identifiers whose non-nil record has strategy S and an actuation status among Skipped,
Succeeded, Failed, the total of the S-reconcile line is the number of those with a
reconcile status among Skipped, Succeeded, Failed, Timeout, and a record whose status in
the dimension is anything else (Pending, empty, any other value) is returned by none of
the `Filter` calls of that report, so it is listed in no segment. -/
theorem Log_total_counts_bucket_records {ID : Type} [DecidableEq ID] [ToString ID]
    (m : ObjectStatusMap ID) (S : ActuationStrategy)
    (hS : S = ActuationStrategyApply ∨ S = ActuationStrategyDelete) :
    S ++ " Actuations" ++ " (Total: "
          ++ toString (m.countRecords (fun st => decide (st.Strategy = S
              ∧ st.Actuation ∈ [ActuationSkipped, ActuationSucceeded, ActuationFailed])))
          ++ ")"
          ++ (if m.countRecords (fun st => decide (st.Strategy = S
              ∧ st.Actuation ∈ [ActuationSkipped, ActuationSucceeded, ActuationFailed])) = 0
            then ""
            else ":\\n" ++ ",\\n".intercalate
              [segment "Skipped" (m.Filter S "Skipped" ""),
                segment "Succeeded" (m.Filter S "Succeeded" ""),
                segment "Failed" (m.Filter S "Failed" "")])
        ∈ (m.Log ⟨true, []⟩).infos
      ∧ S ++ " Reconciles" ++ " (Total: "
          ++ toString (m.countRecords (fun st => decide (st.Strategy = S
              ∧ st.Reconcile ∈ [ReconcileSkipped, ReconcileSucceeded, ReconcileFailed,
                ReconcileTimeout])))
          ++ ")"
          ++ (if m.countRecords (fun st => decide (st.Strategy = S
              ∧ st.Reconcile ∈ [ReconcileSkipped, ReconcileSucceeded, ReconcileFailed,
                ReconcileTimeout])) = 0
            then ""
            else ":\\n" ++ ",\\n".intercalate
              [segment "Skipped" (m.Filter S "" "Skipped"),
                segment "Succeeded" (m.Filter S "" "Succeeded"),
                segment "Failed" (m.Filter S "" "Failed"),
                segment "Timeout" (m.Filter S "" "Timeout")])
        ∈ (m.Log ⟨true, []⟩).infos
      ∧ (∀ id st, m.get id = some (some st) →
          st.Actuation ∉ [ActuationSkipped, ActuationSucceeded, ActuationFailed] →
          ∀ b ∈ actuationStatuses, id ∉ m.Filter S b "")
      ∧ (∀ id st, m.get id = some (some st) →
          st.Reconcile ∉ [ReconcileSkipped, ReconcileSucceeded, ReconcileFailed,
            ReconcileTimeout] →
          ∀ b ∈ reconcileStatuses, id ∉ m.Filter S "" b) := by
  have hSne : ¬ S = "" := by rcases hS with rfl | rfl <;> decide
  have tA : m.countRecords (fun st => decide (st.Strategy = S
      ∧ st.Actuation ∈ [ActuationSkipped, ActuationSucceeded, ActuationFailed]))
      = (m.actuationReport S).1 := by
    rw [actuationReport_total]
    simp only [hSne, false_or, actuationStatuses]
  have tR : m.countRecords (fun st => decide (st.Strategy = S
      ∧ st.Reconcile ∈ [ReconcileSkipped, ReconcileSucceeded, ReconcileFailed,
        ReconcileTimeout]))
      = (m.reconcileReport S).1 := by
    rw [reconcileReport_total]
    simp only [hSne, false_or, reconcileStatuses]
  have hfmt : ∀ (label : String) (count : Nat) (b : String),
      formatTotal label count b = label ++ " (Total: " ++ toString count ++ ")"
        ++ (if count = 0 then "" else ":\\n" ++ b) := by
    intro label count b
    unfold formatTotal
    split <;> (simp only [String.append_assoc]; rfl)
  have hlineA := (Log_lines_of_strategy m S hS).1
  have hlineR := (Log_lines_of_strategy m S hS).2
  rw [hfmt, actuationReport_text] at hlineA
  rw [hfmt, reconcileReport_text] at hlineR
  rw [tA, tR]
  refine ⟨hlineA, hlineR, ?_, ?_⟩
  · intro id st hg hn b hb hmem
    obtain ⟨st2, hg2, _, ha, _⟩ := (mem_Filter_get m id S b "").1 hmem
    rw [hg] at hg2
    cases hg2
    have hb0 : ¬ b = "" := by
      rintro rfl
      revert hb
      decide
    rw [ha.resolve_left hb0] at hn
    exact hn hb
  · intro id st hg hn b hb hmem
    obtain ⟨st2, hg2, _, _, ha⟩ := (mem_Filter_get m id S "" b).1 hmem
    rw [hg] at hg2
    cases hg2
    have hb0 : ¬ b = "" := by
      rintro rfl
      revert hb
      decide
    rw [ha.resolve_left hb0] at hn
    exact hn hb

/-- Witness of C15: on the scenario map, strategy Apply, two records are in an actuation
bucket and one in a reconcile bucket (`id2` is pending in reconcile); on the map whose one
Apply record has empty statuses the Apply-actuation total is 0. -/
theorem Log_total_counts_bucket_records_witness :
    "Apply Actuations (Total: 2):\\nSkipped (0),\\nSucceeded (1): [id1],\\nFailed (1): [id2]"
        ∈ (scenarioMap.Log ⟨true, []⟩).infos
      ∧ "Apply Reconciles (Total: 1):\\nSkipped (0),\\nSucceeded (1): [id1],\\nFailed (0),\\nTimeout (0)"
        ∈ (scenarioMap.Log ⟨true, []⟩).infos
      ∧ "Apply Actuations (Total: 0)" ∈ (unsetMap.Log ⟨true, []⟩).infos :=
  ⟨(Log_total_counts_bucket_records scenarioMap ActuationStrategyApply (Or.inl rfl)).1,
    (Log_total_counts_bucket_records scenarioMap ActuationStrategyApply (Or.inl rfl)).2.1,
    (Log_total_counts_bucket_records unsetMap ActuationStrategyApply (Or.inl rfl)).1⟩

/-- C18: the constraints of `Filter` combine as a conjunction: an identifier is in
`m.Filter(s, a, r)` if and only if it is in `m.Filter(s, "", "")`, in `m.Filter("", a, "")`
and in `m.Filter("", "", r)`; so emptying a constraint never removes an identifier, and
every result is within `m.Filter("", "", "")`. -/
theorem Filter_conjunction {ID : Type} (m : ObjectStatusMap ID) (s a r : String) :
    (∀ id, id ∈ m.Filter s a r ↔
        id ∈ m.Filter s "" "" ∧ id ∈ m.Filter "" a "" ∧ id ∈ m.Filter "" "" r)
      ∧ m.Filter s a r ⊆ m.Filter "" a r
      ∧ m.Filter s a r ⊆ m.Filter s "" r
      ∧ m.Filter s a r ⊆ m.Filter s a ""
      ∧ m.Filter s a r ⊆ m.Filter "" "" "" := by
  refine ⟨?_, ?_, ?_, ?_, ?_⟩
  · intro id
    simp only [mem_Filter_entries]
    constructor
    · rintro ⟨st, hm, h1, h2, h3⟩
      exact ⟨⟨st, hm, h1, Or.inl trivial, Or.inl trivial⟩,
        ⟨st, hm, Or.inl trivial, h2, Or.inl trivial⟩,
        ⟨st, hm, Or.inl trivial, Or.inl trivial, h3⟩⟩
    · rintro ⟨⟨st, hm, h1, _, _⟩, ⟨st2, hm2, _, h2, _⟩, ⟨st3, hm3, _, _, h3⟩⟩
      have e2 := entries_value_unique m id _ _ hm hm2
      have e3 := entries_value_unique m id _ _ hm hm3
      cases e2
      cases e3
      exact ⟨st, hm, h1, h2, h3⟩
  · intro id hmem
    obtain ⟨st, hm, _, h2, h3⟩ := (mem_Filter_entries m id s a r).1 hmem
    exact (mem_Filter_entries m id "" a r).2 ⟨st, hm, Or.inl rfl, h2, h3⟩
  · intro id hmem
    obtain ⟨st, hm, h1, _, h3⟩ := (mem_Filter_entries m id s a r).1 hmem
    exact (mem_Filter_entries m id s "" r).2 ⟨st, hm, h1, Or.inl rfl, h3⟩
  · intro id hmem
    obtain ⟨st, hm, h1, h2, _⟩ := (mem_Filter_entries m id s a r).1 hmem
    exact (mem_Filter_entries m id s a "").2 ⟨st, hm, h1, h2, Or.inl rfl⟩
  · intro id hmem
    obtain ⟨st, hm, _, _, _⟩ := (mem_Filter_entries m id s a r).1 hmem
    exact (mem_Filter_entries m id "" "" "").2 ⟨st, hm, Or.inl rfl, Or.inl rfl, Or.inl rfl⟩

/-- C11: with a logger whose `Enabled` answers false, `Log` hands no message to the
logger and its only call is the one to `Enabled`: no `Filter` call, no write to the
builder, no `Infof`. For every logger, `Enabled` is the first call of `Log` and is not
called again. -/
theorem Log_disabled_short_circuit {ID : Type} [ToString ID] (m : ObjectStatusMap ID)
    (infos : List String) :
    m.Log ⟨false, infos⟩ = ⟨false, infos⟩
      ∧ m.LogSteps ⟨false, infos⟩ = [LogStep.Enabled]
      ∧ ∀ logger, ∃ rest, m.LogSteps logger = LogStep.Enabled :: rest
          ∧ LogStep.Enabled ∉ rest
          ∧ logger.infos ++ infofMessages rest = (m.Log logger).infos := by
  refine ⟨rfl, rfl, ?_⟩
  intro logger
  refine ⟨_, rfl, ?_, ?_⟩
  · obtain ⟨en, linfos⟩ := logger
    cases en
    · simp [infofLogger.Enabled]
    · simp [infofLogger.Enabled, reportLoopSteps, actuationStatuses, reconcileStatuses,
        List.enum, List.enumFrom]
  · have h := infofMessages_LogSteps m logger
    unfold ObjectStatusMap.LogSteps at h
    simpa [infofMessages] using h

/-- C12: for two visiting orders of the same records, `Log` hands the same messages to
the logger, character for character (the loggers after `Log` are equal, for every logger).
More generally, the count and the text of each loop of `Log` stay the same when every
`Filter` result is rearranged on its own, so the visiting order may differ from one
`Filter` call to the next. -/
theorem Log_independent_of_visiting_order {ID : Type} [ToString ID]
    (m m2 : ObjectStatusMap ID) (h : m.entries.Perm m2.entries) :
    (∀ logger, m.Log logger = m2.Log logger)
      ∧ ∀ (q q2 : String → List ID) (statuses : List String),
          (∀ status, (q status).Perm (q2 status)) →
          reportLoop q statuses = reportLoop q2 statuses := by
  have hA : ∀ S, m.actuationReport S = m2.actuationReport S := fun S =>
    reportLoop_eq_of_perm _ _ _ (fun status => Filter_perm_of_entries_perm m m2 h S status "")
  have hR : ∀ S, m.reconcileReport S = m2.reconcileReport S := fun S =>
    reportLoop_eq_of_perm _ _ _ (fun status => Filter_perm_of_entries_perm m m2 h S "" status)
  refine ⟨?_, fun q q2 statuses hq => reportLoop_eq_of_perm q q2 statuses hq⟩
  intro logger
  unfold ObjectStatusMap.Log
  simp only [hA, hR]

/-- Witness of C12: two maps with the same two records in one bucket, visited in opposite
orders, get the same messages, with the names in sorted order. -/
theorem Log_independent_of_visiting_order_witness :
    orderedMap.entries ≠ reversedMap.entries
      ∧ orderedMap.Log ⟨true, []⟩ = reversedMap.Log ⟨true, []⟩
      ∧ (reversedMap.Log ⟨true, []⟩).infos
        = ["Apply Actuations (Total: 2):\\nSkipped (0),\\nSucceeded (2): [id1, id2],\\nFailed (0)",
            "Apply Reconciles (Total: 2):\\nSkipped (0),\\nSucceeded (2): [id1, id2],\\nFailed (0),\\nTimeout (0)",
            "Delete Actuations (Total: 0)", "Delete Reconciles (Total: 0)"] :=
  ⟨by decide,
    (Log_independent_of_visiting_order orderedMap reversedMap (by decide)).1 ⟨true, []⟩,
    by decide⟩

/-- C16: with an enabled logger `Log` adds exactly four messages, in the order Apply
Actuations, Apply Reconciles, Delete Actuations, Delete Reconciles; each is its label
followed by the total in parentheses and, unless the total is zero, the text of the
segments of its own buckets and nothing else. -/
theorem Log_four_messages {ID : Type} [ToString ID] (m : ObjectStatusMap ID)
    (infos : List String) :
    (m.Log ⟨true, infos⟩).infos = infos ++
      [reportLine "Apply Actuations"
          (actuationStatuses.map (fun st => (st, m.Filter ActuationStrategyApply st ""))),
        reportLine "Apply Reconciles"
          (reconcileStatuses.map (fun st => (st, m.Filter ActuationStrategyApply "" st))),
        reportLine "Delete Actuations"
          (actuationStatuses.map (fun st => (st, m.Filter ActuationStrategyDelete st ""))),
        reportLine "Delete Reconciles"
          (reconcileStatuses.map (fun st => (st, m.Filter ActuationStrategyDelete "" st)))] := by
  have hA : ∀ label S, formatTotal label (m.actuationReport S).1 (m.actuationReport S).2
      = reportLine label (actuationStatuses.map (fun st => (st, m.Filter S st ""))) := by
    intro label S
    rw [formatTotal_eq, actuationReport_text, actuationReport_count]
    unfold reportLine
    simp only [actuationStatuses, ActuationSkipped, ActuationSucceeded, ActuationFailed,
      List.map, List.sum_cons, List.sum_nil, Nat.add_zero, Nat.add_assoc]
  have hR : ∀ label S, formatTotal label (m.reconcileReport S).1 (m.reconcileReport S).2
      = reportLine label (reconcileStatuses.map (fun st => (st, m.Filter S "" st))) := by
    intro label S
    rw [formatTotal_eq, reconcileReport_text, reconcileReport_count]
    unfold reportLine
    simp only [reconcileStatuses, ReconcileSkipped, ReconcileSucceeded, ReconcileFailed,
      ReconcileTimeout, List.map, List.sum_cons, List.sum_nil, Nat.add_zero, Nat.add_assoc]
  rw [Log_enabled_infos, hA, hA, hR, hR]

/-- C17: for S in {Apply, Delete}, when the total of the S-actuation report is not zero,
its message is the label and the total followed by the segments for Skipped, Succeeded,
Failed, in that order, joined by comma and escaped newline, without a delimiter before the
first or after the last; likewise the S-reconcile report with the segments for Skipped,
Succeeded, Failed, Timeout. Each segment is built from the `Filter` result for S, the
bucket value and the other dimension unconstrained; there is no segment for Pending. -/
theorem Log_bucket_text {ID : Type} [ToString ID] (m : ObjectStatusMap ID)
    (S : ActuationStrategy)
    (hS : S = ActuationStrategyApply ∨ S = ActuationStrategyDelete) :
    ((m.actuationReport S).1 ≠ 0 →
        S ++ " Actuations" ++ " (Total: " ++ toString (m.actuationReport S).1 ++ "):\\n"
            ++ ",\\n".intercalate
              [segment "Skipped" (m.Filter S "Skipped" ""),
                segment "Succeeded" (m.Filter S "Succeeded" ""),
                segment "Failed" (m.Filter S "Failed" "")]
          ∈ (m.Log ⟨true, []⟩).infos)
      ∧ ((m.reconcileReport S).1 ≠ 0 →
        S ++ " Reconciles" ++ " (Total: " ++ toString (m.reconcileReport S).1 ++ "):\\n"
            ++ ",\\n".intercalate
              [segment "Skipped" (m.Filter S "" "Skipped"),
                segment "Succeeded" (m.Filter S "" "Succeeded"),
                segment "Failed" (m.Filter S "" "Failed"),
                segment "Timeout" (m.Filter S "" "Timeout")]
          ∈ (m.Log ⟨true, []⟩).infos) := by
  constructor
  · intro hne
    have h := (Log_lines_of_strategy m S hS).1
    unfold formatTotal at h
    rw [if_neg hne, actuationReport_text] at h
    exact h
  · intro hne
    have h := (Log_lines_of_strategy m S hS).2
    unfold formatTotal at h
    rw [if_neg hne, reconcileReport_text] at h
    exact h

/-- Witness of C17 on the scenario map, strategy Apply: total 2 in actuation, total 1 in
reconcile, each message with its segments joined by comma and escaped newline. -/
theorem Log_bucket_text_witness :
    "Apply Actuations (Total: 2):\\nSkipped (0),\\nSucceeded (1): [id1],\\nFailed (1): [id2]"
        ∈ (scenarioMap.Log ⟨true, []⟩).infos
      ∧ "Apply Reconciles (Total: 1):\\nSkipped (0),\\nSucceeded (1): [id1],\\nFailed (0),\\nTimeout (0)"
        ∈ (scenarioMap.Log ⟨true, []⟩).infos :=
  ⟨(Log_bucket_text scenarioMap ActuationStrategyApply (Or.inl rfl)).1 (by decide),
    (Log_bucket_text scenarioMap ActuationStrategyApply (Or.inl rfl)).2 (by decide)⟩

end Applier

namespace Decode

/-! ## Lemmas on the resource map -/

/-- Assignment makes the key hold the assigned slice. -/
theorem ResourceMap.get_set_eq {M : Type} (us : ResourceMap M) (gvk : GroupVersionKind)
    (v : List (Unstructured M)) : ResourceMap.get (ResourceMap.set us gvk v) gvk = v := by
  induction us with
  | nil => simp [ResourceMap.set, ResourceMap.get]
  | cons e es ih =>
    by_cases h : e.1 = gvk
    · simp [ResourceMap.set, ResourceMap.get, h]
    · simp [ResourceMap.set, ResourceMap.get, h, ih]

/-- Assignment leaves the slices under the other keys as they were. -/
theorem ResourceMap.get_set_of_ne {M : Type} (us : ResourceMap M) (gvk k : GroupVersionKind)
    (v : List (Unstructured M)) (hk : ¬ gvk = k) :
    ResourceMap.get (ResourceMap.set us gvk v) k = ResourceMap.get us k := by
  induction us with
  | nil => simp [ResourceMap.set, ResourceMap.get, hk]
  | cons e es ih =>
    by_cases h : e.1 = gvk
    · have hek : ¬ e.1 = k := fun h2 => hk (h.symm.trans h2)
      simp [ResourceMap.set, ResourceMap.get, h, hk]
    · obtain ⟨ek, ev⟩ := e
      by_cases h2 : ek = k
      · subst h2
        simp only at h
        simp [ResourceMap.set, ResourceMap.get, h]
      · simp only at h
        simp [ResourceMap.set, ResourceMap.get, h, h2, ih]

/-- The keys after an assignment are the assigned key and the keys before. -/
theorem ResourceMap.mem_keys_set {M : Type} (us : ResourceMap M) (gvk k : GroupVersionKind)
    (v : List (Unstructured M)) :
    k ∈ (ResourceMap.set us gvk v).map Prod.fst ↔ k = gvk ∨ k ∈ us.map Prod.fst := by
  induction us with
  | nil => simp [ResourceMap.set]
  | cons e es ih =>
    by_cases h : e.1 = gvk
    · simp only [ResourceMap.set, h, if_true, List.map_cons, List.mem_cons]
      tauto
    · simp only [ResourceMap.set, h, if_false, List.map_cons, List.mem_cons, ih]
      tauto

/-- Assignment keeps the keys free of duplicates. -/
theorem ResourceMap.nodup_keys_set {M : Type} (us : ResourceMap M) (gvk : GroupVersionKind)
    (v : List (Unstructured M)) (h : (us.map Prod.fst).Nodup) :
    ((ResourceMap.set us gvk v).map Prod.fst).Nodup := by
  induction us with
  | nil => simp [ResourceMap.set]
  | cons e es ih =>
    rw [List.map_cons, List.nodup_cons] at h
    by_cases he : e.1 = gvk
    · simp only [ResourceMap.set, he, if_true, List.map_cons, List.nodup_cons]
      exact ⟨he ▸ h.1, h.2⟩
    · simp only [ResourceMap.set, he, if_false, List.map_cons, List.nodup_cons]
      refine ⟨?_, ih h.2⟩
      rw [ResourceMap.mem_keys_set]
      rintro (h1 | h1)
      · exact he h1
      · exact h.1 h1

/-- Appending one object to the slice of a key adds one to the number of objects in the
map. -/
theorem ResourceMap.sum_set_append {M : Type} (us : ResourceMap M) (gvk : GroupVersionKind)
    (au : Unstructured M) :
    ((ResourceMap.set us gvk (ResourceMap.get us gvk ++ [au])).map (fun e => e.2.length)).sum
      = (us.map (fun e => e.2.length)).sum + 1 := by
  induction us with
  | nil => simp [ResourceMap.set, ResourceMap.get]
  | cons e es ih =>
    by_cases h : e.1 = gvk
    · simp only [ResourceMap.set, ResourceMap.get, h, if_true, List.map_cons, List.sum_cons,
        List.length_append, List.length_singleton]
      omega
    · simp only [ResourceMap.set, ResourceMap.get, h, if_false, List.map_cons, List.sum_cons,
        ih]
      omega

/-! ## The loops as one pass over the input objects -/

/-- The three nested loops, started on any map, are one loop over the input objects. -/
theorem nested_loops_eq_foldlM {M T Raw E : Type} (d : genericResourceDecoder M T Raw E)
    (genericResources : List (GenericResources M T Raw)) (us0 : ResourceMap M) :
    genericResources.foldlM
        (fun us gr =>
          gr.Versions.foldlM
            (fun us v =>
              v.Objects.foldlM
                (fun us genericObject =>
                  let gvk : GroupVersionKind := ⟨gr.Group, v.Version, gr.Kind⟩
                  match decodeObject d gvk genericObject with
                  | Except.error err => Except.error err
                  | Except.ok au =>
                    Except.ok (ResourceMap.set us gvk (ResourceMap.get us gvk ++ [au])))
                us)
            us)
        us0
      = (inputObjects genericResources).foldlM (decodeStep d) us0 := by
  induction genericResources generalizing us0 with
  | nil => rfl
  | cons gr grs ih =>
    unfold inputObjects at ih ⊢
    rw [List.foldlM_cons, List.flatMap_cons, List.foldlM_append]
    have hv : ∀ (vs : List (GenericVersionResources M T Raw)) (us1 : ResourceMap M),
        vs.foldlM
            (fun us v =>
              v.Objects.foldlM
                (fun us genericObject =>
                  let gvk : GroupVersionKind := ⟨gr.Group, v.Version, gr.Kind⟩
                  match decodeObject d gvk genericObject with
                  | Except.error err => Except.error err
                  | Except.ok au =>
                    Except.ok (ResourceMap.set us gvk (ResourceMap.get us gvk ++ [au])))
                us)
            us1
          = (vs.flatMap (fun v => v.Objects.map (fun genericObject =>
              ((⟨gr.Group, v.Version, gr.Kind⟩ : GroupVersionKind), genericObject)))).foldlM
              (decodeStep d) us1 := by
      intro vs
      induction vs with
      | nil => intro us1; rfl
      | cons v vs ihv =>
        intro us1
        rw [List.foldlM_cons, List.flatMap_cons, List.foldlM_append, List.foldlM_map]
        congr 1
        funext us2
        exact ihv us2
    rw [hv]
    congr 1
    funext us1
    exact ih us1

/-- The result of `DecodeResources` is the result of one loop over the input objects. -/
theorem DecodeResources_eq_foldlM {M T Raw E : Type} (d : genericResourceDecoder M T Raw E)
    (genericResources : List (GenericResources M T Raw)) :
    d.DecodeResources genericResources
      = (inputObjects genericResources).foldlM (decodeStep d) [] :=
  nested_loops_eq_foldlM d genericResources []

/-- One loop over objects that all decode and convert: it returns a map, the slice of a
key is the slice before followed by the objects of that key in input order, the keys stay
free of duplicates, they are the keys before and the keys of the objects, and the number
of objects grows by the number of input objects. -/
theorem foldlM_decodeStep_ok {M T Raw E : Type} (d : genericResourceDecoder M T Raw E)
    (L : List (GroupVersionKind × GenericObject M T Raw)) (us0 : ResourceMap M)
    (hok : ∀ p ∈ L, (decodeObject d p.1 p.2).isOk = true)
    (hnd : (us0.map Prod.fst).Nodup) :
    ∃ us, L.foldlM (decodeStep d) us0 = Except.ok us
      ∧ (us.map Prod.fst).Nodup
      ∧ (∀ gvk, gvk ∈ us.map Prod.fst ↔ gvk ∈ us0.map Prod.fst ∨ ∃ p ∈ L, p.1 = gvk)
      ∧ (∀ gvk, (ResourceMap.get us gvk).map
            (Except.ok : Unstructured M → Except (DecodeError E) (Unstructured M))
          = (ResourceMap.get us0 gvk).map Except.ok
            ++ (L.filter (fun p => decide (p.1 = gvk))).map (fun p => decodeObject d p.1 p.2))
      ∧ (us.map (fun e => e.2.length)).sum = (us0.map (fun e => e.2.length)).sum + L.length := by
  induction L generalizing us0 with
  | nil =>
    refine ⟨us0, rfl, hnd, ?_, ?_, ?_⟩
    · intro gvk
      simp
    · intro gvk
      simp
    · simp
  | cons p L ih =>
    have hp := hok p (List.mem_cons_self _ _)
    obtain ⟨au, hau⟩ : ∃ au, decodeObject d p.1 p.2 = Except.ok au := by
      cases hd : decodeObject d p.1 p.2 with
      | error err =>
        rw [hd] at hp
        simp [Except.isOk, Except.toBool] at hp
      | ok au => exact ⟨au, rfl⟩
    have hstep : decodeStep d us0 p
        = Except.ok (ResourceMap.set us0 p.1 (ResourceMap.get us0 p.1 ++ [au])) := by
      unfold decodeStep
      rw [hau]
    obtain ⟨us, hus, h1, h2, h3, h4⟩ :=
      ih (ResourceMap.set us0 p.1 (ResourceMap.get us0 p.1 ++ [au]))
        (fun q hq => hok q (List.mem_cons_of_mem _ hq))
        (ResourceMap.nodup_keys_set us0 p.1 _ hnd)
    refine ⟨us, ?_, h1, ?_, ?_, ?_⟩
    · rw [List.foldlM_cons, hstep]
      exact hus
    · intro gvk
      rw [h2 gvk, ResourceMap.mem_keys_set]
      simp only [List.mem_cons, exists_eq_or_imp]
      constructor
      · rintro ((h | h) | h)
        · exact Or.inr (Or.inl h.symm)
        · exact Or.inl h
        · exact Or.inr (Or.inr h)
      · rintro (h | h | h)
        · exact Or.inl (Or.inr h)
        · exact Or.inl (Or.inl h.symm)
        · exact Or.inr h
    · intro gvk
      rw [h3 gvk]
      by_cases hk : p.1 = gvk
      · subst hk
        rw [ResourceMap.get_set_eq, List.filter_cons_of_pos (by simp), List.map_append,
          List.map_cons, List.map_cons, List.map_nil, hau, List.append_assoc]
        rfl
      · rw [ResourceMap.get_set_of_ne us0 p.1 gvk _ hk,
          List.filter_cons_of_neg (by simpa using hk)]
    · rw [h4, ResourceMap.sum_set_append, List.length_cons]
      omega

/-! ## Properties of `DecodeResources` -/

/-- C14: an empty input yields an empty map and no error; and when every object of the
input decodes and converts, `DecodeResources` returns a map without error in which the
slice under a key holds, in input order, exactly the objects of the input entries with
that group, version and kind, the keys are those of the input objects, none twice, and the
number of objects is the number of input objects. -/
theorem DecodeResources_groups_all {M T Raw E : Type} (d : genericResourceDecoder M T Raw E)
    (genericResources : List (GenericResources M T Raw)) :
    d.DecodeResources [] = Except.ok []
      ∧ ((∀ p ∈ inputObjects genericResources, (decodeObject d p.1 p.2).isOk = true) →
        ∃ us, d.DecodeResources genericResources = Except.ok us
          ∧ (us.map Prod.fst).Nodup
          ∧ (∀ gvk, gvk ∈ us.map Prod.fst ↔ ∃ p ∈ inputObjects genericResources, p.1 = gvk)
          ∧ (∀ gvk, (ResourceMap.get us gvk).map
                (Except.ok : Unstructured M → Except (DecodeError E) (Unstructured M))
              = ((inputObjects genericResources).filter (fun p => decide (p.1 = gvk))).map
                  (fun p => decodeObject d p.1 p.2))
          ∧ (us.map (fun e => e.2.length)).sum = (inputObjects genericResources).length) := by
  refine ⟨rfl, ?_⟩
  intro hok
  obtain ⟨us, hus, h1, h2, h3, h4⟩ :=
    foldlM_decodeStep_ok d (inputObjects genericResources) [] hok (by simp)
  refine ⟨us, ?_, h1, ?_, ?_, ?_⟩
  · rw [DecodeResources_eq_foldlM]
    exact hus
  · intro gvk
    rw [h2 gvk]
    simp
  · intro gvk
    rw [h3 gvk]
    simp [ResourceMap.get]
  · rw [h4]
    simp

/-- Witness of C14 on the sample input: five objects under three keys, the three Role
objects of the first and the last entry under one key, in input order. -/
theorem DecodeResources_groups_all_witness :
    ∃ us, sampleDecoder.DecodeResources sampleResources = Except.ok us
      ∧ (us.map Prod.fst).Nodup
      ∧ (∀ gvk, gvk ∈ us.map Prod.fst ↔ ∃ p ∈ inputObjects sampleResources, p.1 = gvk)
      ∧ (∀ gvk, (ResourceMap.get us gvk).map
            (Except.ok : Unstructured String → Except (DecodeError String) (Unstructured String))
          = ((inputObjects sampleResources).filter (fun p => decide (p.1 = gvk))).map
              (fun p => decodeObject sampleDecoder p.1 p.2))
      ∧ (us.map (fun e => e.2.length)).sum = (inputObjects sampleResources).length :=
  (DecodeResources_groups_all sampleDecoder sampleResources).2 (by decide)

/-- The result of `DecodeResources` on the sample input. -/
theorem DecodeResources_sample :
    sampleDecoder.DecodeResources sampleResources = Except.ok
      [(⟨"rbac", "v1", "Role"⟩, [⟨"r1"⟩, ⟨"r2"⟩, ⟨"r3"⟩]),
        (⟨"acme", "v1", "Anvil"⟩, [⟨"a1/Anvil"⟩]),
        (⟨"acme", "v2", "Anvil"⟩, [⟨"a2"⟩])] := by
  rfl

end Decode
